import Mathlib

/-!
# natra: the bandwidth policy parser and the plugin commands

A shallow embedding of `parseBandwidth`, `ParseBandwidthAnnotation`,
`parseJSONConfig` and `Config.Validate` (`pkg/cni/config/config.go`) and of
`cmdAdd`, `cmdDel`, `cmdCheck` and `passthrough` (`cmd/natra/main.go`), and the
properties of the specification that concern them.  The token bucket limiter
and the count-min sketch of the specification, which the repository does not
contain, are modelled from the specification.

Modelling conventions.

* A Go string is a `List Char`: the sequence of runes that `range` yields.  A
  byte that is not valid UTF-8 behaves, in every function used by the package
  (`TrimSpace`, `range`, `ToUpper`, `ParseInt`), as the rune U+FFFD does, so
  nothing is lost by leaving such bytes out.
* `int64` values are integers; the places where Go arithmetic wraps are written
  with `mul64`.  `int` is taken to be 64 bits wide.
* `error` results are values of an error type; the text of a message is
  represented by the constructor and its arguments.
* Two pieces of the Go standard library are tables or code that the package
  calls but does not contain: the Unicode upper-case mapping of runes beyond
  ASCII (`up`) and `json.Unmarshal` into the anonymous struct of
  `parseJSONConfig` (`unmarshal`).  Both are parameters of the definitions, and
  the theorems hold for every value of them.  In the same way the functions of
  `encoding/json` and of the CNI library that `main.go` calls are the fields of
  `CNILib`.
-/

namespace Natra

/-! ## Machine integers -/

/-- The value of an integer expression after Go stores it in an `int64`. -/
def wrap64 (x : Int) : Int := (x + 2 ^ 63) % 2 ^ 64 - 2 ^ 63

/-- Go `a * b` on `int64` operands. -/
def mul64 (a b : Int) : Int := wrap64 (a * b)

/-- The largest `int64`. -/
def maxInt64 : Int := 2 ^ 63 - 1

/-! ## Data model -/

/-- Go `Config`: configuration parsed from Pod annotations. -/
structure Config where
  Rate : Int
  Burst : Int
  CMSWidth : Int
  CMSDepth : Int
  HeavyHitterThreshold : Int
  TokenBucketRate : Int
  TokenBucketBurst : Int
deriving DecidableEq, Repr

/-- Go `DefaultConfig`. -/
def DefaultConfig : Config :=
  { Rate := 0
    Burst := 0
    CMSWidth := 1024
    CMSDepth := 4
    HeavyHitterThreshold := 1000
    TokenBucketRate := 100
    TokenBucketBurst := 200 }

/-- The two errors `parseBandwidth` builds, with the string each message shows. -/
inductive BandwidthError where
  | invalidNumber (numStr : List Char)
  | unknownSuffix (suffix : List Char)
deriving DecidableEq, Repr

/-- The errors of `ParseBandwidthAnnotation` and `parseJSONConfig`. -/
inductive ConfigError where
  | invalidBandwidthFormat (cause : BandwidthError)
  | failedToParseJSON
  | invalidRate (cause : BandwidthError)
  | invalidBurst (cause : BandwidthError)
deriving DecidableEq, Repr

/-- The errors of `Config.Validate`, one for each message. -/
inductive ValidationError where
  | cmsWidthMustBePositive
  | cmsDepthMustBePositive
  | rateCannotBeNegative
  | burstCannotBeNegative
deriving DecidableEq, Repr

/-- The result of a Go function returning `(T, error)`. -/
inductive Result (ε α : Type) where
  | ok (value : α)
  | err (e : ε)
deriving DecidableEq, Repr

/-- The `cms` member of the struct `parseJSONConfig` decodes into. -/
structure RawCMS where
  Width : Int
  Depth : Int
  HeavyHitterThreshold : Int
deriving DecidableEq, Repr

/-- The `tokenBucket` member of the struct `parseJSONConfig` decodes into. -/
structure RawTokenBucket where
  Rate : Int
  Burst : Int
deriving DecidableEq, Repr

/-- The anonymous struct `raw` of `parseJSONConfig`; a member the document does
not give keeps its zero value. -/
structure Raw where
  Rate : List Char
  Burst : List Char
  CMS : RawCMS
  TokenBucket : RawTokenBucket
deriving DecidableEq, Repr

/-! ## Standard library functions the package calls -/

/-- Go `unicode.IsSpace`: the Latin-1 cases, then the `White_Space` ranges. -/
def isSpace (c : Char) : Bool :=
  let r := c.toNat
  if r ≤ 0xFF then
    r = 0x09 || r = 0x0A || r = 0x0B || r = 0x0C || r = 0x0D || r = 0x20 || r = 0x85 || r = 0xA0
  else
    r = 0x1680 || (0x2000 ≤ r && r ≤ 0x200A) || r = 0x2028 || r = 0x2029 || r = 0x202F
      || r = 0x205F || r = 0x3000

/-- Go `strings.TrimSpace`: leading and trailing white space removed. -/
def TrimSpace (s : List Char) : List Char :=
  ((s.dropWhile isSpace).reverse.dropWhile isSpace).reverse

/-- Go `unicode.ToUpper`: ASCII letters by arithmetic, other runes by the
case table `up`. -/
def toUpperRune (up : Char → Char) (c : Char) : Char :=
  if c.toNat < 128 then
    if 97 ≤ c.toNat ∧ c.toNat ≤ 122 then Char.ofNat (c.toNat - 32) else c
  else up c

/-- Go `strings.ToUpper`. -/
def ToUpper (up : Char → Char) (s : List Char) : List Char :=
  s.map (toUpperRune up)

/-- The test `c < '0' || c > '9'` of the scanning loop. -/
def notDigit (c : Char) : Bool :=
  c.toNat < 48 || c.toNat > 57

/-- The digits loop of Go `strconv.ParseUint` in base 10: `none` at the first
byte that is not a decimal digit. -/
def parseDigits : Nat → List Char → Option Nat
  | acc, [] => some acc
  | acc, c :: cs =>
    if notDigit c then none else parseDigits (acc * 10 + (c.toNat - 48)) cs

/-- Go `strconv.ParseUint(s, 10, 64)`; `none` stands for a syntax or range error. -/
def ParseUint (s : List Char) : Option Nat :=
  match s with
  | [] => none
  | _ :: _ =>
    match parseDigits 0 s with
    | none => none
    | some un => if un < 2 ^ 64 then some un else none

/-- Go `strconv.ParseInt(s, 10, 64)`: an optional sign, then `ParseUint`, then
the range check against `1 << 63`; `none` stands for an error. -/
def ParseInt (s : List Char) : Option Int :=
  match s with
  | [] => none
  | c :: rest =>
    let neg : Bool := c = '-'
    let body := if c = '+' ∨ c = '-' then rest else s
    match ParseUint body with
    | none => none
    | some un =>
      if !neg && un ≥ 2 ^ 63 then none
      else if neg && un > 2 ^ 63 then none
      else some (if neg then -(un : Int) else (un : Int))

/-! ## The package -/

/-- The index at which the loop `for i, c := range s` of `parseBandwidth`
breaks: the position of the first rune that is not a decimal digit. -/
def firstNonDigit : List Char → Option Nat
  | [] => none
  | c :: cs => if notDigit c then some 0 else (firstNonDigit cs).map (· + 1)

/-- The `switch suffix` statement that ends `parseBandwidth`. -/
def suffixSwitch (num : Int) (suffix : List Char) : Result BandwidthError Int :=
  if suffix = [] ∨ suffix = ['B'] then .ok num
  else if suffix = ['K'] ∨ suffix = ['K', 'B'] then .ok (mul64 num 1000)
  else if suffix = ['M'] ∨ suffix = ['M', 'B'] then .ok (mul64 (mul64 num 1000) 1000)
  else if suffix = ['G'] ∨ suffix = ['G', 'B'] then
    .ok (mul64 (mul64 (mul64 num 1000) 1000) 1000)
  else if suffix = ['K', 'I'] ∨ suffix = ['K', 'I', 'B'] then .ok (mul64 num 1024)
  else if suffix = ['M', 'I'] ∨ suffix = ['M', 'I', 'B'] then
    .ok (mul64 (mul64 num 1024) 1024)
  else if suffix = ['G', 'I'] ∨ suffix = ['G', 'I', 'B'] then
    .ok (mul64 (mul64 (mul64 num 1024) 1024) 1024)
  else .err (.unknownSuffix suffix)

/-- Go `parseBandwidth`. -/
def parseBandwidth (up : Char → Char) (s0 : List Char) : Result BandwidthError Int :=
  let s := TrimSpace s0
  if s = [] then .ok 0
  else
    -- Extract numeric part and suffix
    let split : List Char × List Char :=
      match firstNonDigit s with
      | some i => (s.take i, ToUpper up (s.drop i))
      | none => ([], [])
    let numStr := if split.1 = [] then s else split.1
    let suffix := split.2
    match ParseInt numStr with
    | none => .err (.invalidNumber numStr)
    | some num => suffixSwitch num suffix

/-- The steps `// Parse rate` and `// Parse burst` of `parseJSONConfig`, with
their two error returns. -/
def parseRateBurst (up : Char → Char) (raw : Raw) (cfg : Config) : Result ConfigError Config :=
  -- Parse rate
  let rateStep : Result ConfigError Config :=
    if raw.Rate ≠ [] then
      match parseBandwidth up raw.Rate with
      | .err e => .err (.invalidRate e)
      | .ok rate => .ok { cfg with Rate := rate, TokenBucketRate := rate }
    else .ok cfg
  match rateStep with
  | .err e => .err e
  | .ok cfg =>
    -- Parse burst
    if raw.Burst ≠ [] then
      match parseBandwidth up raw.Burst with
      | .err e => .err (.invalidBurst e)
      | .ok burst => .ok { cfg with Burst := burst, TokenBucketBurst := burst }
    else if cfg.Rate > 0 then
      .ok { cfg with Burst := mul64 cfg.Rate 2, TokenBucketBurst := mul64 cfg.Rate 2 }
    else .ok cfg

/-- The step `// CMS config` of `parseJSONConfig`. -/
def applyCMS (cms : RawCMS) (cfg : Config) : Config :=
  let cfg := if cms.Width > 0 then { cfg with CMSWidth := cms.Width } else cfg
  let cfg := if cms.Depth > 0 then { cfg with CMSDepth := cms.Depth } else cfg
  if cms.HeavyHitterThreshold > 0 then
    { cfg with HeavyHitterThreshold := cms.HeavyHitterThreshold }
  else cfg

/-- The step `// Token bucket config (overrides rate/burst if specified)` of
`parseJSONConfig`. -/
def applyTokenBucket (tb : RawTokenBucket) (cfg : Config) : Config :=
  let cfg := if tb.Rate > 0 then { cfg with TokenBucketRate := tb.Rate } else cfg
  if tb.Burst > 0 then { cfg with TokenBucketBurst := tb.Burst } else cfg

/-- Go `parseJSONConfig`; `unmarshal data` is what `json.Unmarshal` leaves in
`raw`, `none` when it returns an error. -/
def parseJSONConfig (unmarshal : List Char → Option Raw) (up : Char → Char)
    (data : List Char) : Result ConfigError Config :=
  let cfg := DefaultConfig
  match unmarshal data with
  | none => .err .failedToParseJSON
  | some raw =>
    match parseRateBurst up raw cfg with
    | .err e => .err e
    | .ok cfg => .ok (applyTokenBucket raw.TokenBucket (applyCMS raw.CMS cfg))

/-- Go `ParseBandwidthAnnotation`. -/
def ParseBandwidthAnnotation (unmarshal : List Char → Option Raw) (up : Char → Char)
    ( annotation : List Char) : Result ConfigError Config :=
  if annotation = [] then .ok DefaultConfig
  else
    let cfg := DefaultConfig
    if (TrimSpace annotation).head? = some '{' then parseJSONConfig unmarshal up annotation
    else
      match parseBandwidth up annotation with
      | .err e => .err (.invalidBandwidthFormat e)
      | .ok rate =>
        .ok { cfg with
              Rate := rate
              Burst := mul64 rate 2
              TokenBucketRate := rate
              TokenBucketBurst := mul64 rate 2 }

/-- Go `(*Config).Validate`; `none` is the `nil` error. -/
def Validate (c : Config) : Option ValidationError :=
  if c.CMSWidth ≤ 0 then some .cmsWidthMustBePositive
  else if c.CMSDepth ≤ 0 then some .cmsDepthMustBePositive
  else if c.Rate < 0 then some .rateCannotBeNegative
  else if c.Burst < 0 then some .burstCannotBeNegative
  else none

/-! ## Vocabulary of the specification -/

/-- The numeric suffix table of the specification, each suffix in upper case
with its multiplier. -/
def suffixTable : List (List Char × Nat) :=
  [ ([], 1), (['B'], 1),
    (['K'], 1000), (['K', 'B'], 1000),
    (['M'], 1000000), (['M', 'B'], 1000000),
    (['G'], 1000000000), (['G', 'B'], 1000000000),
    (['K', 'I'], 1024), (['K', 'I', 'B'], 1024),
    (['M', 'I'], 1024 * 1024), (['M', 'I', 'B'], 1024 * 1024),
    (['G', 'I'], 1024 * 1024 * 1024), (['G', 'I', 'B'], 1024 * 1024 * 1024) ]

/-- The multiplier the table gives an upper-cased suffix, if it has one. -/
def suffixMultiplier (suffix : List Char) : Option Nat :=
  (suffixTable.find? (fun e => e.1 = suffix)).map (·.2)

/-- The rune `c` is the upper-case ASCII letter `u` or its lower-case form. -/
def SameLetter (c u : Char) : Prop :=
  c = u ∨ c.toNat = u.toNat + 32

/-- The string `sfx` spells the upper-case word `w` in some mix of upper and
lower ASCII case. -/
def SpelledAs (sfx w : List Char) : Prop :=
  List.Forall₂ SameLetter sfx w

/-- The number a run of decimal digits denotes. -/
def decimalValue (ds : List Char) : Nat :=
  ds.foldl (fun acc c => acc * 10 + (c.toNat - 48)) 0

/-- Every rune of the string is a decimal digit. -/
def AllDigits (ds : List Char) : Prop :=
  ∀ c ∈ ds, notDigit c = false

/-- The rune is an upper-case ASCII letter. -/
def UpperLetter (u : Char) : Prop :=
  65 ≤ u.toNat ∧ u.toNat ≤ 90

/-- The Config invariant of the specification: all fields non-negative and
both sketch dimensions positive. -/
def ConfigInvariant (c : Config) : Prop :=
  0 ≤ c.Rate ∧ 0 ≤ c.Burst ∧ 0 ≤ c.HeavyHitterThreshold ∧ 0 ≤ c.TokenBucketRate ∧
    0 ≤ c.TokenBucketBurst ∧ 0 < c.CMSWidth ∧ 0 < c.CMSDepth

/-- No `int64` multiplication overflows on the bandwidth string `s`: with `n`
the number its leading digits denote and `m` the multiplier of what follows
them (after trimming), `2 * n * m` is at most `2^63 - 1`.  A string whose suffix
is not in the table has no multiplier and nothing to overflow. -/
def fitsInt64 (up : Char → Char) (s : List Char) : Bool :=
  let t := TrimSpace s
  match suffixMultiplier (ToUpper up (t.dropWhile (fun c => !notDigit c))) with
  | some m => decide (2 * (decimalValue (t.takeWhile (fun c => !notDigit c)) : Int) * m ≤ maxInt64)
  | none => true

/-- A case table that leaves every rune beyond ASCII as it is, for evaluating
the definitions on ASCII inputs, where the table is never consulted. -/
def asciiOnly : Char → Char := fun c => c

/-! ## Sample documents -/

/-- The zero value of the struct `parseJSONConfig` decodes into. -/
def emptyRaw : Raw :=
  { Rate := [], Burst := [], CMS := ⟨0, 0, 0⟩, TokenBucket := ⟨0, 0⟩ }

/-- The document with no member at all. -/
def docEmptyObject : List Char := "\x7b\x7d".toList

/-- The document whose only member is `"rate":"10M"`. -/
def docRate : List Char := "\x7b\"rate\":\"10M\"\x7d".toList

/-- The document `docRate` with `tokenBucket.rate` set to 5000. -/
def docTokenRate : List Char :=
  "\x7b\"rate\":\"10M\",\"tokenBucket\":\x7b\"rate\":5000\x7d\x7d".toList

/-- The document `docRate` with `tokenBucket.burst` set to 7000. -/
def docTokenBurst : List Char :=
  "\x7b\"rate\":\"10M\",\"tokenBucket\":\x7b\"burst\":7000\x7d\x7d".toList

/-- The document `docRate` with `tokenBucket.rate` set to 0. -/
def docTokenRateZero : List Char :=
  "\x7b\"rate\":\"10M\",\"tokenBucket\":\x7b\"rate\":0\x7d\x7d".toList

/-- The document `docRate` with `tokenBucket.burst` set to -5. -/
def docTokenBurstNegative : List Char :=
  "\x7b\"rate\":\"10M\",\"tokenBucket\":\x7b\"burst\":-5\x7d\x7d".toList

/-- The document with `"rate":"10M"`, `"burst":"5M"` and the sketch parameters
2048, 8 and 500. -/
def docRateBurstCMS : List Char :=
  ("\x7b\"rate\":\"10M\",\"burst\":\"5M\",\"cms\":\x7b\"width\":2048,\"depth\":8,"
    ++ "\"heavyHitterThreshold\":500\x7d\x7d").toList

/-- The document `docRate` with the sketch parameters 0, -3 and 0. -/
def docCMSNonPositive : List Char :=
  ("\x7b\"rate\":\"10M\",\"cms\":\x7b\"width\":0,\"depth\":-3,"
    ++ "\"heavyHitterThreshold\":0\x7d\x7d").toList

/-- The structured document carrying only a rate, the string `X`, written as in
the claim: an opening brace, `"rate": "X"` and a closing brace. -/
def rateDocument (X : List Char) : List Char :=
  "\x7b\"rate\": \"".toList ++ X ++ "\"\x7d".toList

/-- The Config the annotation `"10M"` yields. -/
def config10M : Config :=
  { Rate := 10000000
    Burst := 20000000
    CMSWidth := 1024
    CMSDepth := 4
    HeavyHitterThreshold := 1000
    TokenBucketRate := 10000000
    TokenBucketBurst := 20000000 }

/-- What `json.Unmarshal` leaves in `raw` for each sample document; any other
input stands for a document it rejects. -/
def sampleUnmarshal (data : List Char) : Option Raw :=
  if data = docEmptyObject then some emptyRaw
  else if data = docRate then some { emptyRaw with Rate := "10M".toList }
  else if data = docTokenRate then
    some { emptyRaw with Rate := "10M".toList, TokenBucket := ⟨5000, 0⟩ }
  else if data = docTokenBurst then
    some { emptyRaw with Rate := "10M".toList, TokenBucket := ⟨0, 7000⟩ }
  else if data = docTokenRateZero then
    some { emptyRaw with Rate := "10M".toList, TokenBucket := ⟨0, 0⟩ }
  else if data = docTokenBurstNegative then
    some { emptyRaw with Rate := "10M".toList, TokenBucket := ⟨0, -5⟩ }
  else if data = docRateBurstCMS then
    some { Rate := "10M".toList, Burst := "5M".toList, CMS := ⟨2048, 8, 500⟩,
           TokenBucket := ⟨0, 0⟩ }
  else if data = docCMSNonPositive then
    some { emptyRaw with Rate := "10M".toList, CMS := ⟨0, -3, 0⟩ }
  else if data = rateDocument "0".toList then some { emptyRaw with Rate := "0".toList }
  else if data = rateDocument "10M".toList then some { emptyRaw with Rate := "10M".toList }
  else none

/-! ## The token bucket limiter (specification, section 4.3) -/

/-- Modelled from the spec: the bucket of the Token Bucket Limiter, which the
repository does not contain (`cmdAdd` lists it as a TODO): tokens, capacity,
refill rate and last-refill timestamp.  Tokens are integers, time is an integer
number of ticks and the rate is in tokens per tick. -/
structure Bucket where
  tokens : Int
  capacity : Int
  rate : Int
  lastRefill : Int
deriving DecidableEq, Repr

/-- Modelled from the spec: the answer of `tryConsume`, `Admitted` or
`Rejected(availableIn)`; the limiter itself is missing from the repository. -/
inductive Admission where
  | admitted
  | rejected (availableIn : Int)
deriving DecidableEq, Repr

/-- Modelled from the spec: the lazy refill of the missing limiter,
`tokens = min(capacity, tokens + rate × (now - lastRefill))`, then
`lastRefill = now`. -/
def refill (b : Bucket) (now : Int) : Bucket :=
  { b with
    tokens := min b.capacity (b.tokens + b.rate * (now - b.lastRefill))
    lastRefill := now }

/-- Modelled from the spec: `tryConsume(bucket, n, now)` of the missing limiter.
With `rate == 0`, the unlimited sentinel, it admits and leaves the bucket as
it is; otherwise it refills, then subtracts `n` and admits when
`tokens >= n`, and else rejects with the wait `(n - tokens) / rate`. -/
def tryConsume (b : Bucket) (n : Nat) (now : Int) : Bucket × Admission :=
  if b.rate = 0 then (b, .admitted)
  else
    let b := refill b now
    if b.tokens ≥ n then ({ b with tokens := b.tokens - n }, .admitted)
    else (b, .rejected ((n - b.tokens) / b.rate))

/-- Modelled from the spec: a sequence of `tryConsume` calls `(n, now)` on the
missing limiter, applied in order; the bucket after the last one. -/
def consumeAll (b : Bucket) : List (Nat × Int) → Bucket
  | [] => b
  | call :: rest => consumeAll (tryConsume b call.1 call.2).1 rest

/-- Modelled from the spec: the bucket invariant `0 <= tokens <= capacity` of the
missing limiter. -/
def BucketInvariant (b : Bucket) : Prop :=
  0 ≤ b.tokens ∧ b.tokens ≤ b.capacity

/-- Modelled from the spec: the timestamps of a sequence of calls on the missing
limiter never decrease, starting from the time `t`. -/
def NonDecreasingFrom (t : Int) : List (Nat × Int) → Prop
  | [] => True
  | call :: rest => t ≤ call.2 ∧ NonDecreasingFrom call.2 rest

/-! ## The count-min sketch (specification, section 4.2) -/

/-- Modelled from the spec: the sketch of the Heavy-Hitter Detector, which the
repository does not contain (`cmdAdd` lists it as a TODO): `depth` rows of
`width` counters and one hash function for each row.  A counter is a natural
number, `cells row column`. -/
structure Sketch (Flow : Type) where
  width : Nat
  depth : Nat
  hash : Nat → Flow → Nat
  cells : Nat → Nat → Nat

/-- Modelled from the spec: the column in `[0, width)` that the hash function of
a row of the missing sketch gives a flow. -/
def Sketch.column {Flow : Type} (s : Sketch Flow) (row : Nat) (flow : Flow) : Nat :=
  s.hash row flow % s.width

/-- Modelled from the spec: a new sketch of the missing detector, all counters 0. -/
def Sketch.new {Flow : Type} (width depth : Nat) (hash : Nat → Flow → Nat) : Sketch Flow :=
  { width := width, depth := depth, hash := hash, cells := fun _ _ => 0 }

/-- Modelled from the spec: `update` of the missing sketch increments the
counter at `(row, hash_row(flow))` by `bytes`, for every row. -/
def Sketch.update {Flow : Type} (s : Sketch Flow) (flow : Flow) (bytes : Nat) : Sketch Flow :=
  { s with
    cells := fun row col =>
      if row < s.depth ∧ col = s.column row flow then s.cells row col + bytes
      else s.cells row col }

/-- Modelled from the spec: `estimate` of the missing sketch returns the minimum
counter value across all rows at the hashed positions of the flow (0 for a
sketch without rows). -/
def Sketch.estimate {Flow : Type} (s : Sketch Flow) (flow : Flow) : Nat :=
  match (List.range s.depth).map (fun row => s.cells row (s.column row flow)) with
  | [] => 0
  | x :: xs => xs.foldl min x

/-- Modelled from the spec: a sequence of `update(flow, bytes)` calls on the
missing sketch, applied in order with no decay in between. -/
def Sketch.updateAll {Flow : Type} (s : Sketch Flow) : List (Flow × Nat) → Sketch Flow
  | [] => s
  | u :: rest => Sketch.updateAll (s.update u.1 u.2) rest

/-- Modelled from the spec: the true count of a flow, the total of the bytes the
updates added for it. -/
def trueCount {Flow : Type} [DecidableEq Flow] (flow : Flow) : List (Flow × Nat) → Nat
  | [] => 0
  | u :: rest => (if u.1 = flow then u.2 else 0) + trueCount flow rest

/-! ## The plugin commands (`cmd/natra/main.go`) -/

/-- Go `NetConf` as far as `main.go` reads it.  The struct embeds
`types.NetConf` of the CNI library, which declares `RawPrevResult` with the
tag `json:"prevResult"` and `PrevResult` with the tag `json:"-"`: decoding
stdin fills the first and never the second, which only
`version.ParsePrevResult` sets.  `nil` is `none`; the raw previous result, the
previous result and the text of stdin are kept as text. -/
structure NetConf where
  CNIVersion : List Char
  RawPrevResult : Option (List Char)
  PrevResult : Option (List Char)
  PodAnnotations : Option (List (List Char × List Char))
deriving DecidableEq, Repr

/-- The members of `NetConf` that `json.Unmarshal` can fill, those with a JSON
name: `cniVersion`, `prevResult` and `runtimeConfig.podAnnotations`. -/
structure NetConfJSON where
  cniVersion : List Char
  prevResult : Option (List Char)
  podAnnotations : Option (List (List Char × List Char))
deriving DecidableEq, Repr

/-- Go `current.Result` as far as `main.go` builds it: its version and the rest
of its content, empty in `&current.Result{CNIVersion: conf.CNIVersion}`. -/
structure CNIResult where
  CNIVersion : List Char
  content : List Char
deriving DecidableEq, Repr

/-- Go `skel.CmdArgs`; the commands read only `StdinData`. -/
structure CmdArgs where
  StdinData : List Char
deriving DecidableEq, Repr

/-- The functions of `encoding/json` and of the CNI library that `main.go`
calls; `none` stands for a returned error.  `unmarshalNetConf` gives the
members `json.Unmarshal` decodes from stdin, and `printResult` the text
`types.PrintResult` writes to stdout. -/
structure CNILib where
  unmarshalNetConf : List Char → Option NetConfJSON
  newResultFromResult : List Char → Option CNIResult
  printResult : CNIResult → List Char → Option (List Char)

/-- The errors the commands return. -/
inductive CmdError where
  | failedToParseConfig
  | failedToParseNetworkConfig
  | failedToConvertPreviousResult
  | printResultFailed
deriving DecidableEq, Repr

/-- What a command does: the error it returns (`none` is `nil`) and the text
it writes to stdout and to stderr. -/
structure CmdOutcome where
  err : Option CmdError
  stdout : List Char
  stderr : List Char
deriving DecidableEq, Repr

/-- Go `parseConfig`: `json.Unmarshal` into a zero `NetConf`, so `PrevResult`
keeps its zero value `nil`. -/
def parseConfig (lib : CNILib) (stdin : List Char) : Option NetConf :=
  match lib.unmarshalNetConf stdin with
  | none => none
  | some decoded =>
    some { CNIVersion := decoded.cniVersion
           RawPrevResult := decoded.prevResult
           PrevResult := none
           PodAnnotations := decoded.podAnnotations }

/-- Go `getBandwidthAnnotation`. -/
def getBandwidthAnnotation (conf : NetConf) : List Char :=
  match conf.PodAnnotations with
  | none => []
  | some annotations =>
    match annotations.lookup "kubernetes.io/ingress-bandwidth".toList with
    | some bw => bw
    | none => []

/-- Go `passthrough`. -/
def passthrough (lib : CNILib) (args : CmdArgs) : CmdOutcome :=
  match parseConfig lib args.StdinData with
  | none => { err := some .failedToParseNetworkConfig, stdout := [], stderr := [] }
  | some conf =>
    let result : Option CNIResult :=
      match conf.PrevResult with
      | some prev => lib.newResultFromResult prev
      | none => some { CNIVersion := conf.CNIVersion, content := [] }
    match result with
    | none => { err := some .failedToConvertPreviousResult, stdout := [], stderr := [] }
    | some result =>
      match lib.printResult result conf.CNIVersion with
      | none => { err := some .printResultFailed, stdout := [], stderr := [] }
      | some text => { err := none, stdout := text, stderr := [] }

/-- Go `cmdAdd`. -/
def cmdAdd (lib : CNILib) (args : CmdArgs) : CmdOutcome :=
  match parseConfig lib args.StdinData with
  | none => { err := some .failedToParseConfig, stdout := [], stderr := [] }
  | some conf =>
    let bandwidth := getBandwidthAnnotation conf
    if bandwidth = [] then passthrough lib args
    else
      let logged := "natra: bandwidth annotation found: ".toList ++ bandwidth
        ++ " (eBPF not yet implemented)\n".toList
      let out := passthrough lib args
      { out with stderr := logged ++ out.stderr }

/-- Go `cmdDel`. -/
def cmdDel (_args : CmdArgs) : Option CmdError := none

/-- Go `cmdCheck`. -/
def cmdCheck (_args : CmdArgs) : Option CmdError := none

/-- The previous result of the chained sample: version 1.0.0 and one address. -/
def prevResultText : List Char :=
  ("\x7b\"cniVersion\":\"1.0.0\",\"ips\":[\x7b\"address\":\"10.0.0.2/24\"\x7d]\x7d").toList

/-- A stdin with version 1.0.0, the bandwidth annotation `"10M"` and the
previous result `prevResultText` of an earlier plugin of the chain. -/
def chainedStdin : List Char :=
  ("\x7b\"cniVersion\":\"1.0.0\",\"name\":\"n\",\"type\":\"natra\","
    ++ "\"runtimeConfig\":\x7b\"podAnnotations\":"
    ++ "\x7b\"kubernetes.io/ingress-bandwidth\":\"10M\"\x7d\x7d,"
    ++ "\"prevResult\":").toList ++ prevResultText ++ "\x7d".toList

/-- A stdin with version 1.0.0 and the malformed bandwidth annotation `"abc"`. -/
def malformedStdin : List Char :=
  ("\x7b\"cniVersion\":\"1.0.0\",\"name\":\"n\",\"type\":\"natra\","
    ++ "\"runtimeConfig\":\x7b\"podAnnotations\":"
    ++ "\x7b\"kubernetes.io/ingress-bandwidth\":\"abc\"\x7d\x7d\x7d").toList

/-- A stdin with version 1.0.0 and no annotations. -/
def plainStdin : List Char :=
  "\x7b\"cniVersion\":\"1.0.0\",\"name\":\"n\",\"type\":\"natra\"\x7d".toList

/-- A stdin that parses but gives no `cniVersion` and no annotations. -/
def noVersionStdin : List Char :=
  "\x7b\"name\":\"n\",\"type\":\"natra\"\x7d".toList

/-- The library on the sample inputs: what `json.Unmarshal` decodes from each
sample stdin (every other stdin stands for one it rejects), and
`types.PrintResult`, which prints a result for version 1.0.0, here as the
version followed by the content, and returns an error for the empty version,
to which a result without addresses cannot be converted. -/
def sampleLib : CNILib :=
  { unmarshalNetConf := fun stdin =>
      if stdin = plainStdin then
        some { cniVersion := "1.0.0".toList, prevResult := none, podAnnotations := none }
      else if stdin = malformedStdin then
        some { cniVersion := "1.0.0".toList
               prevResult := none
               podAnnotations :=
                 some [("kubernetes.io/ingress-bandwidth".toList, "abc".toList)] }
      else if stdin = chainedStdin then
        some { cniVersion := "1.0.0".toList
               prevResult := some prevResultText
               podAnnotations :=
                 some [("kubernetes.io/ingress-bandwidth".toList, "10M".toList)] }
      else if stdin = noVersionStdin then
        some { cniVersion := [], prevResult := none, podAnnotations := none }
      else none
    newResultFromResult := fun prev =>
      some { CNIVersion := "1.0.0".toList, content := prev }
    printResult := fun result version =>
      if version = "1.0.0".toList then some (result.CNIVersion ++ result.content)
      else none }

/-! ## Machine arithmetic -/

theorem wrap64_of_range (x : Int) (h0 : -(2 ^ 63) ≤ x) (h1 : x ≤ maxInt64) : wrap64 x = x := by
  unfold maxInt64 at h1
  unfold wrap64
  omega

theorem mul64_of_range (a b : Int) (h0 : -(2 ^ 63) ≤ a * b) (h1 : a * b ≤ maxInt64) :
    mul64 a b = a * b :=
  wrap64_of_range _ h0 h1

/-! ## Decimal digits -/

theorem digitChar_toNat (k : Nat) (hk : k < 10) : (Nat.digitChar k).toNat = 48 + k := by
  interval_cases k <;> rfl

theorem notDigit_digitChar (k : Nat) (hk : k < 10) : notDigit (Nat.digitChar k) = false := by
  interval_cases k <;> rfl

theorem allDigits_nil : AllDigits [] := by
  intro c hc
  cases hc

theorem allDigits_cons {c : Char} {ds : List Char} :
    AllDigits (c :: ds) ↔ notDigit c = false ∧ AllDigits ds := by
  unfold AllDigits
  simp

theorem allDigits_append {xs ys : List Char} :
    AllDigits (xs ++ ys) ↔ AllDigits xs ∧ AllDigits ys := by
  unfold AllDigits
  constructor
  · intro h
    exact ⟨fun c hc => h c (List.mem_append_left _ hc), fun c hc => h c (List.mem_append_right _ hc)⟩
  · rintro ⟨h1, h2⟩ c hc
    rcases List.mem_append.1 hc with h | h
    · exact h1 c h
    · exact h2 c h

/-- On a run of digits the loop of `ParseUint` computes Horner's rule. -/
theorem parseDigits_append (ds : List Char) (hd : AllDigits ds) (acc : Nat) (rest : List Char) :
    parseDigits acc (ds ++ rest)
      = parseDigits (ds.foldl (fun a c => a * 10 + (c.toNat - 48)) acc) rest := by
  induction ds generalizing acc with
  | nil => rfl
  | cons c cs ih =>
    have hc := (allDigits_cons.1 hd).1
    have hcs := (allDigits_cons.1 hd).2
    simp only [List.cons_append, parseDigits, hc, List.foldl_cons]
    exact ih hcs _

theorem parseDigits_allDigits (ds : List Char) (hd : AllDigits ds) :
    parseDigits 0 ds = some (decimalValue ds) := by
  have h := parseDigits_append ds hd 0 []
  simpa [decimalValue, parseDigits] using h

theorem foldl_digits_acc (ds : List Char) (acc : Nat) :
    ds.foldl (fun a c => a * 10 + (c.toNat - 48)) acc
      = acc * 10 ^ ds.length + decimalValue ds := by
  induction ds generalizing acc with
  | nil => simp [decimalValue]
  | cons c cs ih =>
    simp only [List.foldl_cons, decimalValue, List.length_cons]
    rw [ih, ih (0 * 10 + (c.toNat - 48))]
    ring

theorem decimalValue_append (xs ys : List Char) :
    decimalValue (xs ++ ys) = decimalValue xs * 10 ^ ys.length + decimalValue ys := by
  unfold decimalValue
  rw [List.foldl_append, foldl_digits_acc ys]
  rfl

theorem decimalValue_replicate_zero (k : Nat) : decimalValue (List.replicate k '0') = 0 := by
  induction k with
  | zero => rfl
  | succ k ih =>
    have h : List.replicate (k + 1) '0' = ['0'] ++ List.replicate k '0' := rfl
    have h1 : decimalValue ['0'] = 0 := rfl
    rw [h, decimalValue_append, ih, h1]
    simp

theorem allDigits_replicate_zero (k : Nat) : AllDigits (List.replicate k '0') := by
  intro c hc
  rw [List.eq_of_mem_replicate hc]
  rfl

/-- What `Nat.toDigits 10` puts in front of its accumulator is a non-empty
run of digits denoting the number. -/
theorem toDigitsCore_spec (fuel n : Nat) (hf : n < fuel) (ds : List Char) :
    ∃ D : List Char, Nat.toDigitsCore 10 fuel n ds = D ++ ds ∧ D ≠ [] ∧ AllDigits D ∧
      decimalValue D = n := by
  induction fuel generalizing n ds with
  | zero => omega
  | succ fuel ih =>
    unfold Nat.toDigitsCore
    have hm : n % 10 < 10 := Nat.mod_lt _ (by decide)
    by_cases h0 : n / 10 = 0
    · refine ⟨[Nat.digitChar (n % 10)], by simp [h0], by simp, ?_, ?_⟩
      · exact allDigits_cons.2 ⟨notDigit_digitChar _ hm, allDigits_nil⟩
      · simp only [decimalValue, List.foldl_cons, List.foldl_nil, digitChar_toNat _ hm]
        omega
    · have hlt : n / 10 < fuel := by omega
      obtain ⟨D, hD, -, hall, hval⟩ := ih (n / 10) hlt (Nat.digitChar (n % 10) :: ds)
      refine ⟨D ++ [Nat.digitChar (n % 10)], by simp [h0, hD], by simp, ?_, ?_⟩
      · exact allDigits_append.2
          ⟨hall, allDigits_cons.2 ⟨notDigit_digitChar _ hm, allDigits_nil⟩⟩
      · rw [decimalValue_append, hval]
        simp only [decimalValue, List.foldl_cons, List.foldl_nil, digitChar_toNat _ hm,
          List.length_singleton]
        omega

theorem toDigits_spec (n : Nat) :
    Nat.toDigits 10 n ≠ [] ∧ AllDigits (Nat.toDigits 10 n) ∧
      decimalValue (Nat.toDigits 10 n) = n := by
  obtain ⟨D, hD, hne, hall, hval⟩ := toDigitsCore_spec (n + 1) n (Nat.lt_succ_self n) []
  have : Nat.toDigits 10 n = D := by simpa [Nat.toDigits] using hD
  rw [this]
  exact ⟨hne, hall, hval⟩

/-! ## Trimming and scanning -/

theorem dropWhile_eq_self_of_head (p : Char → Bool) (s : List Char)
    (h : ∀ c, s.head? = some c → p c = false) : s.dropWhile p = s := by
  cases s with
  | nil => rfl
  | cons c cs => simp [List.dropWhile, h c rfl]

/-- A string that neither starts nor ends with white space is its own trimmed form. -/
theorem TrimSpace_eq_self (s : List Char) (hh : ∀ c, s.head? = some c → isSpace c = false)
    (hl : ∀ c, s.getLast? = some c → isSpace c = false) : TrimSpace s = s := by
  unfold TrimSpace
  rw [dropWhile_eq_self_of_head isSpace s hh, dropWhile_eq_self_of_head isSpace s.reverse]
  · exact List.reverse_reverse s
  · intro c hc
    rw [List.head?_reverse] at hc
    exact hl c hc

theorem isSpace_false_of_digit (c : Char) (h : notDigit c = false) : isSpace c = false := by
  simp only [notDigit, Bool.or_eq_false_iff, decide_eq_false_iff_not, not_lt] at h
  unfold isSpace
  simp only [Bool.or_eq_true, decide_eq_true_eq, Bool.and_eq_true]
  have h1 : c.toNat ≤ 0xFF := by omega
  simp only [h1, if_true]
  simp only [Bool.or_eq_false_iff, decide_eq_false_iff_not]
  omega

theorem firstNonDigit_append (D : List Char) (hd : AllDigits D) (r : List Char) :
    firstNonDigit (D ++ r) = (firstNonDigit r).map (· + D.length) := by
  induction D with
  | nil => simp
  | cons c cs ih =>
    have hc := (allDigits_cons.1 hd).1
    have ih2 := ih (allDigits_cons.1 hd).2
    cases hr : firstNonDigit r with
    | none => simp [firstNonDigit, hc, ih2, hr]
    | some i => simp [firstNonDigit, hc, ih2, hr, Nat.add_assoc]

theorem firstNonDigit_of_head (r : List Char) (hs : ∀ c, r.head? = some c → notDigit c = true) :
    firstNonDigit r = if r = [] then none else some 0 := by
  cases r with
  | nil => rfl
  | cons c cs => simp [firstNonDigit, hs c rfl]

/-! ## `ParseInt` on a run of digits -/

theorem ParseInt_digits (D : List Char) (hne : D ≠ []) (hd : AllDigits D) :
    ParseInt D = if decimalValue D < 2 ^ 63 then some (decimalValue D : Int) else none := by
  cases D with
  | nil => exact absurd rfl hne
  | cons c cs =>
    have hc := (allDigits_cons.1 hd).1
    have hplus : c ≠ '+' := by
      rintro rfl
      exact absurd hc (by decide)
    have hminus : c ≠ '-' := by
      rintro rfl
      exact absurd hc (by decide)
    simp only [ParseInt, ParseUint, hplus, hminus, or_self, if_false, decide_False,
      parseDigits_allDigits _ hd]
    by_cases h : decimalValue (c :: cs) < 9223372036854775808
    · have h64 : decimalValue (c :: cs) < 18446744073709551616 := by omega
      have h' : ¬ (9223372036854775808 ≤ decimalValue (c :: cs)) := by omega
      simp [h, h64, h']
    · by_cases h64 : decimalValue (c :: cs) < 18446744073709551616
      · have h' : 9223372036854775808 ≤ decimalValue (c :: cs) := by omega
        simp [h, h64, h']
      · simp [h, h64]

/-- The core of `parseBandwidth`: on a trimmed input made of a non-empty run of
digits and a rest that does not start with a digit, the number is parsed and
the upper-cased rest goes to the suffix switch. -/
theorem parseBandwidth_digits (up : Char → Char) (s0 D sfx : List Char)
    (ht : TrimSpace s0 = D ++ sfx) (hne : D ≠ []) (hd : AllDigits D)
    (hs : ∀ c, sfx.head? = some c → notDigit c = true) :
    parseBandwidth up s0 =
      if decimalValue D < 2 ^ 63 then suffixSwitch (decimalValue D : Int) (ToUpper up sfx)
      else .err (.invalidNumber D) := by
  have hne2 : D ++ sfx ≠ [] := by simp [hne]
  unfold parseBandwidth
  simp only [ht, hne2, if_false, firstNonDigit_append D hd, firstNonDigit_of_head sfx hs]
  cases sfx with
  | nil =>
    simp only [if_true, Option.map_none', List.append_nil, ParseInt_digits D hne hd]
    by_cases h : decimalValue D < 2 ^ 63
    · simp only [h, if_true, ToUpper, List.map_nil]
    · simp only [h, if_false]
  | cons c cs =>
    simp only [reduceCtorEq, if_false, Option.map_some', Nat.zero_add, List.take_left',
      List.drop_left', hne, ParseInt_digits D hne hd]
    by_cases h : decimalValue D < 2 ^ 63
    · simp only [h, if_true]
    · simp only [h, if_false]

/-! ## The suffix table -/

theorem mul64_small (a b : Int) (h0 : 0 ≤ a * b) (h1 : a * b ≤ maxInt64) :
    mul64 a b = a * b :=
  mul64_of_range a b (by omega) h1

/-- Without overflow the switch multiplies by the multiplier of the table. -/
theorem suffixSwitch_table (num : Int) (w : List Char) (m : Nat) (hw : (w, m) ∈ suffixTable)
    (h0 : 0 ≤ num) (hb : num * m ≤ maxInt64) : suffixSwitch num w = .ok (num * m) := by
  have e : maxInt64 = 9223372036854775807 := by norm_num [maxInt64]
  rw [e] at hb
  have k2 : ∀ x c : Int, 0 ≤ x * c → x * c ≤ 9223372036854775807 → mul64 x c = x * c :=
    fun x c hc0 hc1 => mul64_small x c hc0 (by rw [e]; exact hc1)
  simp only [suffixTable, List.mem_cons, Prod.mk.injEq, List.mem_singleton, List.not_mem_nil,
    or_false] at hw
  rcases hw with ⟨rfl, rfl⟩ | ⟨rfl, rfl⟩ | ⟨rfl, rfl⟩ | ⟨rfl, rfl⟩ | ⟨rfl, rfl⟩ | ⟨rfl, rfl⟩ |
    ⟨rfl, rfl⟩ | ⟨rfl, rfl⟩ | ⟨rfl, rfl⟩ | ⟨rfl, rfl⟩ | ⟨rfl, rfl⟩ | ⟨rfl, rfl⟩ | ⟨rfl, rfl⟩ |
    ⟨rfl, rfl⟩ <;>
  simp only [Nat.cast_one, Nat.cast_ofNat, Nat.cast_mul, mul_one] at hb ⊢ <;>
  simp +decide only [suffixSwitch, if_true, if_false, or_true, true_or, or_self,
    Result.ok.injEq] <;>
  first
  | rfl
  | (rw [k2 num 1000 (by omega) (by omega), k2 (num * 1000) 1000 (by omega) (by omega),
      k2 (num * 1000 * 1000) 1000 (by omega) (by omega)]; ring)
  | (rw [k2 num 1000 (by omega) (by omega), k2 (num * 1000) 1000 (by omega) (by omega)]; ring)
  | (rw [k2 num 1000 (by omega) (by omega)])
  | (rw [k2 num 1024 (by omega) (by omega), k2 (num * 1024) 1024 (by omega) (by omega),
      k2 (num * 1024 * 1024) 1024 (by omega) (by omega)]; ring)
  | (rw [k2 num 1024 (by omega) (by omega), k2 (num * 1024) 1024 (by omega) (by omega)]; ring)
  | (rw [k2 num 1024 (by omega) (by omega)])

theorem table_words (w : List Char) (m : Nat) (hw : (w, m) ∈ suffixTable) :
    (∀ u ∈ w, UpperLetter u) ∧ 1 ≤ m := by
  simp only [suffixTable, List.mem_cons, Prod.mk.injEq, List.mem_singleton, List.not_mem_nil,
    or_false] at hw
  rcases hw with ⟨rfl, rfl⟩ | ⟨rfl, rfl⟩ | ⟨rfl, rfl⟩ | ⟨rfl, rfl⟩ | ⟨rfl, rfl⟩ | ⟨rfl, rfl⟩ |
    ⟨rfl, rfl⟩ | ⟨rfl, rfl⟩ | ⟨rfl, rfl⟩ | ⟨rfl, rfl⟩ | ⟨rfl, rfl⟩ | ⟨rfl, rfl⟩ | ⟨rfl, rfl⟩ |
    ⟨rfl, rfl⟩ <;>
  exact ⟨by simp [UpperLetter], by decide⟩

/-- An ASCII letter in either case is no digit and no white space, and its
upper-case form does not depend on the case table. -/
theorem sameLetter_facts (c u : Char) (hu : UpperLetter u) (h : SameLetter c u) :
    notDigit c = true ∧ isSpace c = false ∧ ∀ up, toUpperRune up c = u := by
  have hrange : (c.toNat = u.toNat) ∨ (c.toNat = u.toNat + 32) := by
    rcases h with h | h
    · exact Or.inl (by rw [h])
    · exact Or.inr h
  obtain ⟨hu1, hu2⟩ := hu
  refine ⟨?_, ?_, ?_⟩
  · simp only [notDigit, Bool.or_eq_true, decide_eq_true_eq]
    omega
  · unfold isSpace
    have h1 : c.toNat ≤ 0xFF := by omega
    simp only [h1, if_true, Bool.or_eq_false_iff, decide_eq_false_iff_not]
    omega
  · intro up
    unfold toUpperRune
    have h1 : c.toNat < 128 := by omega
    rcases h with h | h
    · subst h
      have h2 : ¬ (97 ≤ c.toNat ∧ c.toNat ≤ 122) := by omega
      simp only [h1, h2, if_true, if_false]
    · have h2 : 97 ≤ c.toNat ∧ c.toNat ≤ 122 := by omega
      have h3 : c.toNat - 32 = u.toNat := by omega
      simp only [h1, h2, if_true, and_self, h3, Char.ofNat_toNat]

theorem spelled_facts (sfx w : List Char) (hs : SpelledAs sfx w) (hw : ∀ u ∈ w, UpperLetter u) :
    (∀ c ∈ sfx, notDigit c = true ∧ isSpace c = false) ∧ ∀ up, ToUpper up sfx = w := by
  induction hs with
  | nil => exact ⟨by simp, fun _ => rfl⟩
  | cons hcu _ ih =>
    obtain ⟨h1, h2, h3⟩ := sameLetter_facts _ _ (hw _ (List.mem_cons_self _ _)) hcu
    obtain ⟨ih1, ih2⟩ := ih (fun u hu => hw u (List.mem_cons_of_mem _ hu))
    refine ⟨?_, ?_⟩
    · intro c hc
      rcases List.mem_cons.1 hc with rfl | hc
      · exact ⟨h1, h2⟩
      · exact ih1 c hc
    · intro up
      simp only [ToUpper, List.map_cons, h3 up]
      exact congrArg _ (ih2 up)

theorem TrimSpace_of_no_space (s : List Char) (h : ∀ c ∈ s, isSpace c = false) :
    TrimSpace s = s :=
  TrimSpace_eq_self s (fun c hc => h c (List.mem_of_mem_head? hc))
    (fun c hc => h c (List.mem_of_mem_getLast? hc))

/-- The general form of the suffix table property: any non-empty run of digits,
any spelling of a table suffix. -/
theorem parseBandwidth_table (up : Char → Char) (D sfx w : List Char) (m : Nat)
    (hne : D ≠ []) (hd : AllDigits D) (hw : (w, m) ∈ suffixTable) (hs : SpelledAs sfx w)
    (hb : (decimalValue D : Int) * m ≤ maxInt64) :
    parseBandwidth up (D ++ sfx) = .ok ((decimalValue D : Int) * m) := by
  obtain ⟨hupper, hm⟩ := table_words w m hw
  obtain ⟨hsfx, hup⟩ := spelled_facts sfx w hs hupper
  have htrim : TrimSpace (D ++ sfx) = D ++ sfx := by
    apply TrimSpace_of_no_space
    intro c hc
    rcases List.mem_append.1 hc with h | h
    · exact isSpace_false_of_digit c (hd c h)
    · exact (hsfx c h).2
  have hhead : ∀ c, sfx.head? = some c → notDigit c = true :=
    fun c hc => (hsfx c (List.mem_of_mem_head? hc)).1
  have hlt : decimalValue D < 2 ^ 63 := by
    have e : maxInt64 = 9223372036854775807 := by norm_num [maxInt64]
    rw [e] at hb
    have h1 : (decimalValue D : Int) * 1 ≤ (decimalValue D : Int) * m :=
      Int.mul_le_mul_of_nonneg_left (by exact_mod_cast hm) (Int.natCast_nonneg _)
    have h2 : (decimalValue D : Int) ≤ 9223372036854775807 := by omega
    norm_num
    omega
  rw [parseBandwidth_digits up (D ++ sfx) D sfx htrim hne hd hhead, if_pos hlt, hup up]
  exact suffixSwitch_table _ w m hw (Int.natCast_nonneg _) hb

/-! ## C1: the numeric suffix table -/

/-- C1: for every natural number `n` written in decimal (with any number `k`
of leading zeros) and every suffix of the table spelled in any mix of upper
and lower ASCII case, if `n` times the multiplier is at most `2^63 - 1` then
`parseBandwidth` succeeds on the digits followed by the suffix and returns
exactly `n` times the multiplier. -/
theorem C1_parseBandwidth_suffix_table (up : Char → Char) (k n : Nat) (sfx w : List Char)
    (m : Nat) (hw : (w, m) ∈ suffixTable) (hs : SpelledAs sfx w)
    (hb : (n : Int) * m ≤ maxInt64) :
    parseBandwidth up (List.replicate k '0' ++ Nat.toDigits 10 n ++ sfx)
      = .ok ((n : Int) * m) := by
  obtain ⟨hne, hall, hval⟩ := toDigits_spec n
  have hD : AllDigits (List.replicate k '0' ++ Nat.toDigits 10 n) :=
    allDigits_append.2 ⟨allDigits_replicate_zero k, hall⟩
  have hv : decimalValue (List.replicate k '0' ++ Nat.toDigits 10 n) = n := by
    rw [decimalValue_append, decimalValue_replicate_zero, hval]
    simp
  have h := parseBandwidth_table up (List.replicate k '0' ++ Nat.toDigits 10 n) sfx w m
    (by simp [hne]) hD hw hs (by rw [hv]; exact hb)
  rw [hv] at h
  exact h

/-- C1 at the examples of the specification: `"10M"` gives 10000000 and `"1Ki"`
gives 1024. -/
theorem C1_parseBandwidth_suffix_table_witness :
    parseBandwidth asciiOnly "10M".toList = .ok 10000000 ∧
      parseBandwidth asciiOnly "1Ki".toList = .ok 1024 :=
  ⟨C1_parseBandwidth_suffix_table asciiOnly 0 10 ['M'] ['M'] 1000000 (by decide)
      (List.Forall₂.cons (Or.inl rfl) List.Forall₂.nil) (by decide),
    C1_parseBandwidth_suffix_table asciiOnly 0 1 ['K', 'i'] ['K', 'I'] 1024 (by decide)
      (List.Forall₂.cons (Or.inl rfl) (List.Forall₂.cons (Or.inr rfl) List.Forall₂.nil))
      (by decide)⟩

/-! ## What an accepted bandwidth string looks like -/

theorem suffixMultiplier_iff (w : List Char) (m : Nat) :
    suffixMultiplier w = some m ↔ (w, m) ∈ suffixTable := by
  constructor
  · intro h
    unfold suffixMultiplier at h
    obtain ⟨e, he, rfl⟩ := Option.map_eq_some'.1 h
    have h1 := List.mem_of_find?_eq_some he
    have h2 := List.find?_some he
    simp only [decide_eq_true_eq] at h2
    subst h2
    exact h1
  · intro hw
    simp only [suffixTable, List.mem_cons, Prod.mk.injEq, List.mem_singleton, List.not_mem_nil,
      or_false] at hw
    rcases hw with ⟨rfl, rfl⟩ | ⟨rfl, rfl⟩ | ⟨rfl, rfl⟩ | ⟨rfl, rfl⟩ | ⟨rfl, rfl⟩ | ⟨rfl, rfl⟩ |
      ⟨rfl, rfl⟩ | ⟨rfl, rfl⟩ | ⟨rfl, rfl⟩ | ⟨rfl, rfl⟩ | ⟨rfl, rfl⟩ | ⟨rfl, rfl⟩ | ⟨rfl, rfl⟩ |
      ⟨rfl, rfl⟩ <;> rfl

/-- The switch succeeds only on a suffix of the table. -/
theorem suffixSwitch_ok_inv (num r : Int) (w : List Char) (h : suffixSwitch num w = .ok r) :
    ∃ m, (w, m) ∈ suffixTable := by
  unfold suffixSwitch at h
  split_ifs at h with h1 h2 h3 h4 h5 h6 h7
  · rcases h1 with rfl | rfl <;> exact ⟨1, by decide⟩
  · rcases h2 with rfl | rfl <;> exact ⟨1000, by decide⟩
  · rcases h3 with rfl | rfl <;> exact ⟨1000000, by decide⟩
  · rcases h4 with rfl | rfl <;> exact ⟨1000000000, by decide⟩
  · rcases h5 with rfl | rfl <;> exact ⟨1024, by decide⟩
  · rcases h6 with rfl | rfl <;> exact ⟨1024 * 1024, by decide⟩
  · rcases h7 with rfl | rfl <;> exact ⟨1024 * 1024 * 1024, by decide⟩

/-- The switch reports an unknown suffix on everything outside the table. -/
theorem suffixSwitch_unknown (num : Int) (w : List Char) (h : suffixMultiplier w = none) :
    suffixSwitch num w = .err (.unknownSuffix w) := by
  cases hs : suffixSwitch num w with
  | err e =>
    unfold suffixSwitch at hs
    split_ifs at hs
    simp only [Result.err.injEq] at hs
    rw [hs]
  | ok r =>
    obtain ⟨m, hm⟩ := suffixSwitch_ok_inv num r w hs
    rw [(suffixMultiplier_iff w m).2 hm] at h
    cases h

/-- Every string is a run of digits followed by a rest that does not start
with a digit. -/
theorem digit_split (s : List Char) :
    ∃ D rest, s = D ++ rest ∧ AllDigits D ∧ ∀ c, rest.head? = some c → notDigit c = true := by
  induction s with
  | nil => exact ⟨[], [], rfl, allDigits_nil, by simp⟩
  | cons c cs ih =>
    by_cases hc : notDigit c = true
    · exact ⟨[], c :: cs, rfl, allDigits_nil, by simpa using hc⟩
    · obtain ⟨D, rest, hs, hD, hrest⟩ := ih
      refine ⟨c :: D, rest, by rw [hs]; rfl, allDigits_cons.2 ⟨by simpa using hc, hD⟩, hrest⟩

theorem ParseInt_nondigit (c : Char) (cs : List Char) (v : Int) (hc : notDigit c = true)
    (h : ParseInt (c :: cs) = some v) : c = '+' ∨ c = '-' := by
  by_contra hsign
  simp only [ParseInt, hsign, if_false, ParseUint, parseDigits, hc, if_true] at h
  cases h

theorem suffixSwitch_sign (up : Char → Char) (num : Int) (c : Char) (cs : List Char)
    (hc : c = '+' ∨ c = '-') :
    suffixSwitch num (ToUpper up (c :: cs)) = .err (.unknownSuffix (ToUpper up (c :: cs))) := by
  apply suffixSwitch_unknown
  cases hm : suffixMultiplier (ToUpper up (c :: cs)) with
  | none => rfl
  | some m =>
    exfalso
    have hw := (suffixMultiplier_iff _ m).1 hm
    have hup := (table_words _ m hw).1 (toUpperRune up c) (by simp [ToUpper])
    have h1 : toUpperRune up '+' = '+' := rfl
    have h2 : toUpperRune up '-' = '-' := rfl
    rcases hc with rfl | rfl
    · rw [h1] at hup
      exact absurd hup.1 (by decide)
    · rw [h2] at hup
      exact absurd hup.1 (by decide)

/-- A trimmed input that starts with a rune other than a digit is never accepted. -/
theorem parseBandwidth_nondigit (up : Char → Char) (s c : List Char) (x : Char)
    (ht : TrimSpace s = x :: c) (hx : notDigit x = true) :
    ∃ e, parseBandwidth up s = .err e := by
  unfold parseBandwidth
  simp only [ht, reduceCtorEq, if_false, firstNonDigit, hx, if_true, List.take_zero,
    List.drop_zero]
  cases hp : ParseInt (x :: c) with
  | none => exact ⟨_, rfl⟩
  | some v =>
    have hsign := ParseInt_nondigit x c v hx hp
    exact ⟨_, suffixSwitch_sign up v x c hsign⟩

/-- The shape of every input `parseBandwidth` accepts. -/
theorem parseBandwidth_ok_inv (up : Char → Char) (s : List Char) (r : Int)
    (h : parseBandwidth up s = .ok r) :
    (TrimSpace s = [] ∧ r = 0) ∨
      ∃ D sfx, TrimSpace s = D ++ sfx ∧ D ≠ [] ∧ AllDigits D ∧
        (∀ c, sfx.head? = some c → notDigit c = true) ∧ decimalValue D < 2 ^ 63 ∧
        suffixSwitch (decimalValue D : Int) (ToUpper up sfx) = .ok r := by
  by_cases he : TrimSpace s = []
  · left
    simp only [parseBandwidth, he, if_true, Result.ok.injEq] at h
    exact ⟨he, h.symm⟩
  · right
    obtain ⟨D, sfx, hs, hD, hsfx⟩ := digit_split (TrimSpace s)
    cases D with
    | nil =>
      exfalso
      cases sfx with
      | nil => exact he hs
      | cons x c =>
        obtain ⟨e, hee⟩ := parseBandwidth_nondigit up s c x hs (hsfx x rfl)
        rw [hee] at h
        cases h
    | cons d ds =>
      have hne : d :: ds ≠ [] := by simp
      rw [parseBandwidth_digits up s (d :: ds) sfx hs hne hD hsfx] at h
      by_cases hlt : decimalValue (d :: ds) < 2 ^ 63
      · rw [if_pos hlt] at h
        exact ⟨d :: ds, sfx, hs, hne, hD, hsfx, hlt, h⟩
      · rw [if_neg hlt] at h
        cases h

theorem takeWhile_dropWhile_digits (D rest : List Char) (hD : AllDigits D)
    (hrest : ∀ c, rest.head? = some c → notDigit c = true) :
    (D ++ rest).takeWhile (fun c => !notDigit c) = D ∧
      (D ++ rest).dropWhile (fun c => !notDigit c) = rest := by
  induction D with
  | nil =>
    cases rest with
    | nil => exact ⟨rfl, rfl⟩
    | cons x xs => simp [List.takeWhile, List.dropWhile, hrest x rfl]
  | cons d ds ih =>
    have hd := (allDigits_cons.1 hD).1
    obtain ⟨i1, i2⟩ := ih (allDigits_cons.1 hD).2
    simp only [List.cons_append, List.takeWhile, List.dropWhile, hd, Bool.not_false]
    exact ⟨congrArg _ i1, i2⟩

/-- Without overflow an accepted bandwidth is non-negative and can be doubled. -/
theorem parseBandwidth_fits (up : Char → Char) (s : List Char) (r : Int)
    (h : parseBandwidth up s = .ok r) (hf : fitsInt64 up s = true) :
    0 ≤ r ∧ 2 * r ≤ maxInt64 := by
  have e : maxInt64 = 9223372036854775807 := by norm_num [maxInt64]
  rcases parseBandwidth_ok_inv up s r h with ⟨-, rfl⟩ | ⟨D, sfx, hs, -, hD, hsfx, -, hsw⟩
  · rw [e]
    omega
  · obtain ⟨m, hm⟩ := suffixSwitch_ok_inv _ _ _ hsw
    obtain ⟨t1, t2⟩ := takeWhile_dropWhile_digits D sfx hD hsfx
    have hfit : 2 * (decimalValue D : Int) * m ≤ maxInt64 := by
      simpa [fitsInt64, hs, t1, t2, (suffixMultiplier_iff _ m).2 hm] using hf
    have hn : (0 : Int) ≤ (decimalValue D : Int) * m :=
      Int.mul_nonneg (Int.natCast_nonneg _) (Int.natCast_nonneg _)
    rw [Int.mul_assoc] at hfit
    have hle : (decimalValue D : Int) * m ≤ maxInt64 := by
      rw [e] at hfit ⊢
      omega
    rw [suffixSwitch_table _ _ m hm (Int.natCast_nonneg _) hle] at hsw
    simp only [Result.ok.injEq] at hsw
    subst hsw
    exact ⟨hn, hfit⟩

/-! ## The steps of `parseJSONConfig` -/

/-- What the rate and burst steps leave in the configuration when they succeed. -/
theorem parseRateBurst_ok (up : Char → Char) (raw : Raw) (c : Config)
    (h : parseRateBurst up raw DefaultConfig = .ok c) :
    c.CMSWidth = 1024 ∧ c.CMSDepth = 4 ∧ c.HeavyHitterThreshold = 1000 ∧
      (raw.Rate = [] → c.Rate = 0 ∧ c.TokenBucketRate = 100) ∧
      (raw.Rate ≠ [] → parseBandwidth up raw.Rate = .ok c.Rate ∧ c.TokenBucketRate = c.Rate) ∧
      (raw.Burst ≠ [] →
        parseBandwidth up raw.Burst = .ok c.Burst ∧ c.TokenBucketBurst = c.Burst) ∧
      (raw.Burst = [] → 0 < c.Rate →
        c.Burst = mul64 c.Rate 2 ∧ c.TokenBucketBurst = c.Burst) ∧
      (raw.Burst = [] → c.Rate ≤ 0 → c.Burst = 0 ∧ c.TokenBucketBurst = 200) := by
  unfold parseRateBurst at h
  by_cases hr : raw.Rate = [] <;> by_cases hb : raw.Burst = []
  · simp only [hr, hb, ne_eq, not_true_eq_false, if_false, DefaultConfig, gt_iff_lt,
      lt_self_iff_false, Result.ok.injEq] at h
    subst h
    simp [hr, hb]
  · simp only [hr, hb, ne_eq, not_true_eq_false, not_false_eq_true, if_false, if_true,
      DefaultConfig] at h
    cases hpb : parseBandwidth up raw.Burst with
    | err e => simp [hpb] at h
    | ok burst =>
      simp only [hpb, Result.ok.injEq] at h
      subst h
      simp [hr, hb]
  · simp only [hr, hb, ne_eq, not_true_eq_false, not_false_eq_true, if_false, if_true,
      DefaultConfig] at h
    cases hpr : parseBandwidth up raw.Rate with
    | err e => simp [hpr] at h
    | ok rate =>
      simp only [hpr] at h
      by_cases hpos : rate > 0
      · simp only [hpos, if_true, Result.ok.injEq] at h
        subst h
        simp [hr, hb, hpos]
      · simp only [hpos, if_false, Result.ok.injEq] at h
        subst h
        simp [hr, hb, hpos]
  · simp only [hr, hb, ne_eq, not_false_eq_true, if_true, DefaultConfig] at h
    cases hpr : parseBandwidth up raw.Rate with
    | err e => simp [hpr] at h
    | ok rate =>
      simp only [hpr] at h
      cases hpb : parseBandwidth up raw.Burst with
      | err e => simp [hpb] at h
      | ok burst =>
        simp only [hpb, Result.ok.injEq] at h
        subst h
        simp [hr, hb]

/-- An accepted structured document went through all three steps. -/
theorem parseJSONConfig_ok (unmarshal : List Char → Option Raw) (up : Char → Char)
    (data : List Char) (raw : Raw) (cfg : Config) (hraw : unmarshal data = some raw)
    (h : parseJSONConfig unmarshal up data = .ok cfg) :
    ∃ c, parseRateBurst up raw DefaultConfig = .ok c ∧
      cfg = applyTokenBucket raw.TokenBucket (applyCMS raw.CMS c) := by
  unfold parseJSONConfig at h
  simp only [hraw] at h
  cases hrb : parseRateBurst up raw DefaultConfig with
  | err e => simp [hrb] at h
  | ok c =>
    simp only [hrb, Result.ok.injEq] at h
    exact ⟨c, rfl, h.symm⟩

theorem applyCMS_fields (cms : RawCMS) (c : Config) :
    (applyCMS cms c).Rate = c.Rate ∧ (applyCMS cms c).Burst = c.Burst ∧
      (applyCMS cms c).TokenBucketRate = c.TokenBucketRate ∧
      (applyCMS cms c).TokenBucketBurst = c.TokenBucketBurst ∧
      (applyCMS cms c).CMSWidth = (if cms.Width > 0 then cms.Width else c.CMSWidth) ∧
      (applyCMS cms c).CMSDepth = (if cms.Depth > 0 then cms.Depth else c.CMSDepth) ∧
      (applyCMS cms c).HeavyHitterThreshold
        = (if cms.HeavyHitterThreshold > 0 then cms.HeavyHitterThreshold
            else c.HeavyHitterThreshold) := by
  unfold applyCMS
  by_cases h1 : cms.Width > 0 <;> by_cases h2 : cms.Depth > 0 <;>
    by_cases h3 : cms.HeavyHitterThreshold > 0 <;> simp [h1, h2, h3]

theorem applyTokenBucket_fields (tb : RawTokenBucket) (c : Config) :
    (applyTokenBucket tb c).Rate = c.Rate ∧ (applyTokenBucket tb c).Burst = c.Burst ∧
      (applyTokenBucket tb c).CMSWidth = c.CMSWidth ∧
      (applyTokenBucket tb c).CMSDepth = c.CMSDepth ∧
      (applyTokenBucket tb c).HeavyHitterThreshold = c.HeavyHitterThreshold ∧
      (applyTokenBucket tb c).TokenBucketRate
        = (if tb.Rate > 0 then tb.Rate else c.TokenBucketRate) ∧
      (applyTokenBucket tb c).TokenBucketBurst
        = (if tb.Burst > 0 then tb.Burst else c.TokenBucketBurst) := by
  unfold applyTokenBucket
  by_cases h1 : tb.Rate > 0 <;> by_cases h2 : tb.Burst > 0 <;> simp [h1, h2]

/-! ## C2: the simple format -/

/-- A structured annotation is handed to `parseJSONConfig` unchanged. -/
theorem ParseBandwidthAnnotation_structured (unmarshal : List Char → Option Raw)
    (up : Char → Char) (data : List Char) (hj : (TrimSpace data).head? = some '{') :
    ParseBandwidthAnnotation unmarshal up data = parseJSONConfig unmarshal up data := by
  have hne : data ≠ [] := by
    rintro rfl
    simp [TrimSpace] at hj
  simp only [ ParseBandwidthAnnotation, hne, hj, if_true, if_false]

/-- C2: a simple-format annotation (non-empty, trimmed form not starting with
an opening brace) that `parseBandwidth` accepts with value `r` yields
`Rate = r`, `Burst = 2*r`, `TokenBucketRate = r`, `TokenBucketBurst = 2*r`
(the product in `int64` arithmetic) and the default sketch parameters
1024, 4 and 1000. -/
theorem C2_simple_format_config (unmarshal : List Char → Option Raw) (up : Char → Char)
    (a : List Char) (r : Int) (hne : a ≠ []) (hj : (TrimSpace a).head? ≠ some '{')
    (hp : parseBandwidth up a = .ok r) :
    ParseBandwidthAnnotation unmarshal up a =
      .ok { Rate := r
            Burst := mul64 r 2
            CMSWidth := 1024
            CMSDepth := 4
            HeavyHitterThreshold := 1000
            TokenBucketRate := r
            TokenBucketBurst := mul64 r 2 } := by
  simp only [ ParseBandwidthAnnotation, hne, hj, hp, if_false, DefaultConfig]

/-- C2 at the example of the specification: `"10M"` yields rate 10000000 and
burst 20000000 for both the aggregate and the per-flow bucket. -/
theorem C2_simple_format_config_witness :
    ParseBandwidthAnnotation (fun _ => none) asciiOnly "10M".toList =
      .ok { Rate := 10000000
            Burst := 20000000
            CMSWidth := 1024
            CMSDepth := 4
            HeavyHitterThreshold := 1000
            TokenBucketRate := 10000000
            TokenBucketBurst := 20000000 } :=
  C2_simple_format_config (fun _ => none) asciiOnly "10M".toList 10000000 (by decide)
    (by decide) (by decide)

/-! ## C3: per-flow bucket overrides -/

/-- C3: in an accepted structured document, setting `tokenBucket.rate` to
`t > 0` changes `TokenBucketRate` to `t` and nothing else, and setting
`tokenBucket.burst` to `b > 0` changes `TokenBucketBurst` to `b` and nothing
else: `Rate`, `Burst`, `CMSWidth`, `CMSDepth` and `HeavyHitterThreshold` are
those of the document as it was. -/
theorem C3_tokenBucket_override_frame (unmarshal : List Char → Option Raw) (up : Char → Char)
    (data dataRate dataBurst : List Char) (raw : Raw) (t b : Int) (cfg : Config)
    (hj : (TrimSpace data).head? = some '{')
    (hjr : (TrimSpace dataRate).head? = some '{')
    (hjb : (TrimSpace dataBurst).head? = some '{')
    (hdata : unmarshal data = some raw)
    (hrate : unmarshal dataRate
      = some { raw with TokenBucket := { raw.TokenBucket with Rate := t } })
    (hburst : unmarshal dataBurst
      = some { raw with TokenBucket := { raw.TokenBucket with Burst := b } })
    (ht : 0 < t) (hb : 0 < b)
    (hacc : ParseBandwidthAnnotation unmarshal up data = .ok cfg) :
    ParseBandwidthAnnotation unmarshal up dataRate = .ok { cfg with TokenBucketRate := t } ∧
      ParseBandwidthAnnotation unmarshal up dataBurst
        = .ok { cfg with TokenBucketBurst := b } := by
  have hsame : ∀ tb : RawTokenBucket,
      parseRateBurst up { raw with TokenBucket := tb } DefaultConfig
        = parseRateBurst up raw DefaultConfig := fun _ => rfl
  rw [ParseBandwidthAnnotation_structured _ _ _ hj] at hacc
  rw [ParseBandwidthAnnotation_structured _ _ _ hjr,
    ParseBandwidthAnnotation_structured _ _ _ hjb]
  unfold parseJSONConfig at hacc ⊢
  simp only [hdata, hrate, hburst, hsame] at hacc ⊢
  cases hrb : parseRateBurst up raw DefaultConfig with
  | err e => simp [hrb] at hacc
  | ok c0 =>
    simp only [hrb, Result.ok.injEq] at hacc ⊢
    subst hacc
    unfold applyTokenBucket
    constructor
    · by_cases h : raw.TokenBucket.Burst > 0 <;> by_cases h2 : raw.TokenBucket.Rate > 0 <;>
        simp [h, h2, ht]
    · by_cases h : raw.TokenBucket.Burst > 0 <;> by_cases h2 : raw.TokenBucket.Rate > 0 <;>
        simp [h, h2, hb]

/-- C3 on the sample documents: from `"rate":"10M"` alone to the same document
with `tokenBucket.rate` 5000, and with `tokenBucket.burst` 7000. -/
theorem C3_tokenBucket_override_frame_witness :
    ParseBandwidthAnnotation sampleUnmarshal asciiOnly docTokenRate =
        .ok { Rate := 10000000
              Burst := 20000000
              CMSWidth := 1024
              CMSDepth := 4
              HeavyHitterThreshold := 1000
              TokenBucketRate := 5000
              TokenBucketBurst := 20000000 } ∧
      ParseBandwidthAnnotation sampleUnmarshal asciiOnly docTokenBurst =
        .ok { Rate := 10000000
              Burst := 20000000
              CMSWidth := 1024
              CMSDepth := 4
              HeavyHitterThreshold := 1000
              TokenBucketRate := 10000000
              TokenBucketBurst := 7000 } :=
  C3_tokenBucket_override_frame sampleUnmarshal asciiOnly docRate docTokenRate docTokenBurst
    { emptyRaw with Rate := "10M".toList } 5000 7000
    { Rate := 10000000
      Burst := 20000000
      CMSWidth := 1024
      CMSDepth := 4
      HeavyHitterThreshold := 1000
      TokenBucketRate := 10000000
      TokenBucketBurst := 20000000 }
    (by decide) (by decide) (by decide) (by decide) (by decide) (by decide) (by decide)
    (by decide) (by decide)

/-- The per-flow bucket of an accepted structured document, field by field. -/
theorem structured_tokenBucket (unmarshal : List Char → Option Raw)
    (up : Char → Char) (data : List Char) (raw : Raw) (cfg : Config)
    (hj : (TrimSpace data).head? = some '{') (hraw : unmarshal data = some raw)
    (hacc : ParseBandwidthAnnotation unmarshal up data = .ok cfg) :
    (0 < raw.TokenBucket.Rate → cfg.TokenBucketRate = raw.TokenBucket.Rate) ∧
      (raw.TokenBucket.Rate ≤ 0 →
        cfg.TokenBucketRate = if raw.Rate = [] then 100 else cfg.Rate) ∧
      (0 < raw.TokenBucket.Burst → cfg.TokenBucketBurst = raw.TokenBucket.Burst) ∧
      (raw.TokenBucket.Burst ≤ 0 →
        cfg.TokenBucketBurst = if raw.Burst = [] ∧ cfg.Rate ≤ 0 then 200 else cfg.Burst) := by
  rw [ParseBandwidthAnnotation_structured _ _ _ hj] at hacc
  obtain ⟨c, hc, rfl⟩ := parseJSONConfig_ok unmarshal up data raw cfg hraw hacc
  obtain ⟨-, -, -, hr0, hr1, hb1, hb2, hb3⟩ := parseRateBurst_ok up raw c hc
  obtain ⟨t1, t2, -, -, -, t6, t7⟩ :=
    applyTokenBucket_fields raw.TokenBucket (applyCMS raw.CMS c)
  obtain ⟨a1, a2, a3, a4, -, -, -⟩ := applyCMS_fields raw.CMS c
  rw [t1, t2, t6, t7, a1, a2, a3, a4]
  refine ⟨fun h => by simp [h], fun h => ?_, fun h => by simp [h], fun h => ?_⟩
  · have h' : ¬ raw.TokenBucket.Rate > 0 := by omega
    by_cases hr : raw.Rate = []
    · simp [h', hr, (hr0 hr).2]
    · simp [h', hr, (hr1 hr).2]
  · have h' : ¬ raw.TokenBucket.Burst > 0 := by omega
    by_cases hb : raw.Burst = []
    · by_cases hrate : 0 < c.Rate
      · have hn : ¬ c.Rate ≤ 0 := by omega
        simp [h', hb, hn, (hb2 hb hrate).2]
      · have hn : c.Rate ≤ 0 := by omega
        simp [h', hb, hn, (hb3 hb hn).2]
    · simp [h', hb, (hb1 hb).2]

/-! ## C4: `tokenBucket` values that are present but not positive -/

/-- C4, as stated, fails: the sample document with `"rate":"10M"` and
`tokenBucket.rate` present with value 0 yields `TokenBucketRate = 10000000`,
the rate-derived value, not 0; and with `tokenBucket.burst` present with value
-5 it yields `TokenBucketBurst = 20000000`, not -5. -/
theorem C4_present_value_counterexample :
    (sampleUnmarshal docTokenRateZero).map (fun raw => raw.TokenBucket.Rate) = some 0 ∧
      ParseBandwidthAnnotation sampleUnmarshal asciiOnly docTokenRateZero =
        .ok { Rate := 10000000
              Burst := 20000000
              CMSWidth := 1024
              CMSDepth := 4
              HeavyHitterThreshold := 1000
              TokenBucketRate := 10000000
              TokenBucketBurst := 20000000 } ∧
      (sampleUnmarshal docTokenBurstNegative).map (fun raw => raw.TokenBucket.Burst)
        = some (-5) ∧
      ParseBandwidthAnnotation sampleUnmarshal asciiOnly docTokenBurstNegative =
        .ok { Rate := 10000000
              Burst := 20000000
              CMSWidth := 1024
              CMSDepth := 4
              HeavyHitterThreshold := 1000
              TokenBucketRate := 10000000
              TokenBucketBurst := 20000000 } := by
  decide

/-- C4, amended: in an accepted structured document a `tokenBucket.rate` value
that is positive becomes `TokenBucketRate`, and a value that is zero or
negative is treated as absent: `TokenBucketRate` is then `Rate` when the
document gives a rate and the default 100 otherwise.  Likewise a positive
`tokenBucket.burst` becomes `TokenBucketBurst`, and otherwise
`TokenBucketBurst` is `Burst`, or the default 200 when the document gives no
burst and `Rate` is not positive. -/
theorem C4_tokenBucket_positive_override (unmarshal : List Char → Option Raw)
    (up : Char → Char) (data : List Char) (raw : Raw) (cfg : Config)
    (hj : (TrimSpace data).head? = some '{') (hraw : unmarshal data = some raw)
    (hacc : ParseBandwidthAnnotation unmarshal up data = .ok cfg) :
    (0 < raw.TokenBucket.Rate → cfg.TokenBucketRate = raw.TokenBucket.Rate) ∧
      (raw.TokenBucket.Rate ≤ 0 →
        cfg.TokenBucketRate = if raw.Rate = [] then 100 else cfg.Rate) ∧
      (0 < raw.TokenBucket.Burst → cfg.TokenBucketBurst = raw.TokenBucket.Burst) ∧
      (raw.TokenBucket.Burst ≤ 0 →
        cfg.TokenBucketBurst = if raw.Burst = [] ∧ cfg.Rate ≤ 0 then 200 else cfg.Burst) := by
  exact structured_tokenBucket unmarshal up data raw cfg hj hraw hacc

/-- C4, amended, on the sample document with `tokenBucket.rate` 5000. -/
theorem C4_tokenBucket_positive_override_witness :
    ParseBandwidthAnnotation sampleUnmarshal asciiOnly docTokenRate
        = .ok { config10M with TokenBucketRate := 5000 } ∧
      ({ config10M with TokenBucketRate := 5000 } : Config).TokenBucketRate = 5000 :=
  ⟨by decide,
    (C4_tokenBucket_positive_override sampleUnmarshal asciiOnly docTokenRate
      { emptyRaw with Rate := "10M".toList, TokenBucket := ⟨5000, 0⟩ }
      { config10M with TokenBucketRate := 5000 }
      (by decide) (by decide) (by decide)).1 (by decide)⟩

/-! ## C5: the per-flow bucket without `tokenBucket` fields -/

/-- C5, as stated, fails: the empty annotation, and the structured document
with no member, yield `TokenBucketRate = 100` and `TokenBucketBurst = 200`
while `Rate` and `Burst` are 0. -/
theorem C5_default_bucket_counterexample :
    ParseBandwidthAnnotation sampleUnmarshal asciiOnly [] =
        .ok { Rate := 0
              Burst := 0
              CMSWidth := 1024
              CMSDepth := 4
              HeavyHitterThreshold := 1000
              TokenBucketRate := 100
              TokenBucketBurst := 200 } ∧
      ParseBandwidthAnnotation sampleUnmarshal asciiOnly docEmptyObject =
        .ok { Rate := 0
              Burst := 0
              CMSWidth := 1024
              CMSDepth := 4
              HeavyHitterThreshold := 1000
              TokenBucketRate := 100
              TokenBucketBurst := 200 } := by
  decide

/-- C5, amended: for an accepted annotation without `tokenBucket` fields the
per-flow bucket equals the aggregate bucket for every simple-format value;
for a structured document `TokenBucketRate = Rate` when it gives a rate and
`TokenBucketBurst = Burst` when it gives a burst or `Rate` is positive;
otherwise the values of `DefaultConfig` stay, 100 and 200, as they do for the
empty annotation. -/
theorem C5_per_flow_bucket_defaults (unmarshal : List Char → Option Raw) (up : Char → Char)
    (a : List Char) (cfg : Config)
    (hacc : ParseBandwidthAnnotation unmarshal up a = .ok cfg) :
    (a = [] → cfg.TokenBucketRate = 100 ∧ cfg.TokenBucketBurst = 200 ∧
        cfg.Rate = 0 ∧ cfg.Burst = 0) ∧
      (a ≠ [] → (TrimSpace a).head? ≠ some '{' →
        cfg.TokenBucketRate = cfg.Rate ∧ cfg.TokenBucketBurst = cfg.Burst) ∧
      (∀ raw, (TrimSpace a).head? = some '{' → unmarshal a = some raw →
        raw.TokenBucket = ⟨0, 0⟩ →
        cfg.TokenBucketRate = (if raw.Rate = [] then 100 else cfg.Rate) ∧
          cfg.TokenBucketBurst
            = (if raw.Burst = [] ∧ cfg.Rate ≤ 0 then 200 else cfg.Burst)) := by
  refine ⟨?_, ?_, ?_⟩
  · rintro rfl
    simp only [ ParseBandwidthAnnotation, if_true, Result.ok.injEq] at hacc
    subst hacc
    simp [DefaultConfig]
  · intro hne hj
    simp only [ ParseBandwidthAnnotation, hne, hj, if_false] at hacc
    cases hp : parseBandwidth up a with
    | err e => simp [hp] at hacc
    | ok r =>
      simp only [hp, Result.ok.injEq] at hacc
      subst hacc
      simp
  · intro raw hj hraw htb
    obtain ⟨-, h2, -, h4⟩ :=
      structured_tokenBucket unmarshal up a raw cfg hj hraw hacc
    exact ⟨h2 (by simp [htb]), h4 (by simp [htb])⟩

/-- C5, amended, at the simple-format value `"10M"`. -/
theorem C5_per_flow_bucket_defaults_witness :
    ParseBandwidthAnnotation sampleUnmarshal asciiOnly "10M".toList = .ok config10M ∧
      config10M.TokenBucketRate = config10M.Rate ∧
      config10M.TokenBucketBurst = config10M.Burst :=
  ⟨by decide,
    (C5_per_flow_bucket_defaults sampleUnmarshal asciiOnly "10M".toList config10M
      (by decide)).2.1 (by decide) (by decide)⟩

/-- Without overflow every accepted annotation yields a Config that satisfies
the invariant. -/
theorem invariant_of_fits (unmarshal : List Char → Option Raw) (up : Char → Char)
    (a : List Char) (cfg : Config)
    (hacc : ParseBandwidthAnnotation unmarshal up a = .ok cfg)
    (hsimple : (TrimSpace a).head? ≠ some '{' → fitsInt64 up a = true)
    (hjson : ∀ raw, (TrimSpace a).head? = some '{' → unmarshal a = some raw →
      fitsInt64 up raw.Rate = true ∧ fitsInt64 up raw.Burst = true) :
    ConfigInvariant cfg := by
  have e : maxInt64 = 9223372036854775807 := by norm_num [maxInt64]
  have hdouble : ∀ r : Int, 0 ≤ r → 2 * r ≤ maxInt64 → mul64 r 2 = r * 2 := by
    intro r h0 h1
    rw [e] at h1
    exact mul64_small r 2 (by omega) (by rw [e]; omega)
  by_cases hempty : a = []
  · subst hempty
    simp only [ ParseBandwidthAnnotation, if_true, Result.ok.injEq] at hacc
    subst hacc
    simp [ConfigInvariant, DefaultConfig]
  by_cases hj : (TrimSpace a).head? = some '{'
  · rw [ParseBandwidthAnnotation_structured _ _ _ hj] at hacc
    cases hraw : unmarshal a with
    | none => simp [parseJSONConfig, hraw] at hacc
    | some raw =>
      obtain ⟨hfr, hfb⟩ := hjson raw hj hraw
      obtain ⟨c, hc, rfl⟩ := parseJSONConfig_ok unmarshal up a raw cfg hraw hacc
      obtain ⟨w1, w2, w3, hr0, hr1, hb1, hb2, hb3⟩ := parseRateBurst_ok up raw c hc
      obtain ⟨t1, t2, t3, t4, t5, t6, t7⟩ :=
        applyTokenBucket_fields raw.TokenBucket (applyCMS raw.CMS c)
      obtain ⟨a1, a2, a3, a4, a5, a6, a7⟩ := applyCMS_fields raw.CMS c
      have hrate : 0 ≤ c.Rate ∧ 0 ≤ c.TokenBucketRate ∧ 2 * c.Rate ≤ maxInt64 := by
        by_cases hr : raw.Rate = []
        · obtain ⟨x, y⟩ := hr0 hr
          rw [x, y, e]
          omega
        · obtain ⟨x, y⟩ := hr1 hr
          obtain ⟨p, q⟩ := parseBandwidth_fits up raw.Rate c.Rate x hfr
          rw [y]
          exact ⟨p, p, q⟩
      have hburst : 0 ≤ c.Burst ∧ 0 ≤ c.TokenBucketBurst := by
        by_cases hb : raw.Burst = []
        · by_cases hpos : 0 < c.Rate
          · obtain ⟨x, y⟩ := hb2 hb hpos
            rw [y, x, hdouble c.Rate hrate.1 hrate.2.2]
            omega
          · obtain ⟨x, y⟩ := hb3 hb (by omega)
            rw [x, y]
            omega
        · obtain ⟨x, y⟩ := hb1 hb
          obtain ⟨p, -⟩ := parseBandwidth_fits up raw.Burst c.Burst x hfb
          rw [y]
          exact ⟨p, p⟩
      unfold ConfigInvariant
      rw [t1, t2, t3, t4, t5, t6, t7, a1, a2, a3, a4, a5, a6, a7, w1, w2, w3]
      refine ⟨hrate.1, hburst.1, ?_, ?_, ?_, ?_, ?_⟩
      · split <;> omega
      · split <;> omega
      · split <;> omega
      · split <;> omega
      · split <;> omega
  · simp only [ ParseBandwidthAnnotation, hempty, hj, if_false] at hacc
    cases hp : parseBandwidth up a with
    | err e => simp [hp] at hacc
    | ok r =>
      simp only [hp, Result.ok.injEq] at hacc
      subst hacc
      obtain ⟨p, q⟩ := parseBandwidth_fits up a r hp (hsimple hj)
      simp only [ConfigInvariant, DefaultConfig, hdouble r p q]
      omega

/-! ## C6: the Config invariant -/

/-- C6, as stated, fails: with wrapping `int64` multiplication the accepted
annotation `"5000000000G"` yields `Burst = TokenBucketBurst =
-8446744073709551616`, and `"9223372036854775807K"` yields `Rate = -1000`. -/
theorem C6_overflow_counterexample :
    ParseBandwidthAnnotation sampleUnmarshal asciiOnly "5000000000G".toList =
        .ok { Rate := 5000000000000000000
              Burst := -8446744073709551616
              CMSWidth := 1024
              CMSDepth := 4
              HeavyHitterThreshold := 1000
              TokenBucketRate := 5000000000000000000
              TokenBucketBurst := -8446744073709551616 } ∧
      ParseBandwidthAnnotation sampleUnmarshal asciiOnly "9223372036854775807K".toList =
        .ok { Rate := -1000
              Burst := -2000
              CMSWidth := 1024
              CMSDepth := 4
              HeavyHitterThreshold := 1000
              TokenBucketRate := -1000
              TokenBucketBurst := -2000 } := by
  decide

/-- C6, amended: for every accepted annotation (empty, simple or structured)
in which no `int64` multiplication overflows, that is, `2 * n * m <= 2^63 - 1`
for the number `n` and multiplier `m` of the simple value or of the structured
rate and burst strings, the returned Config satisfies the invariant: `Rate`,
`Burst`, `HeavyHitterThreshold`, `TokenBucketRate` and `TokenBucketBurst` are
non-negative and `CMSWidth` and `CMSDepth` are positive. -/
theorem C6_invariant_without_overflow (unmarshal : List Char → Option Raw) (up : Char → Char)
    (a : List Char) (cfg : Config)
    (hacc : ParseBandwidthAnnotation unmarshal up a = .ok cfg)
    (hsimple : (TrimSpace a).head? ≠ some '{' → fitsInt64 up a = true)
    (hjson : ∀ raw, (TrimSpace a).head? = some '{' → unmarshal a = some raw →
      fitsInt64 up raw.Rate = true ∧ fitsInt64 up raw.Burst = true) :
    ConfigInvariant cfg := by
  exact invariant_of_fits unmarshal up a cfg hacc hsimple hjson

/-- C6, amended, at the simple-format value `"10M"`. -/
theorem C6_invariant_without_overflow_witness :
    ParseBandwidthAnnotation sampleUnmarshal asciiOnly "10M".toList = .ok config10M ∧
      fitsInt64 asciiOnly "10M".toList = true ∧ ConfigInvariant config10M :=
  ⟨by decide, by decide,
    C6_invariant_without_overflow sampleUnmarshal asciiOnly "10M".toList config10M (by decide)
      (fun _ => by decide) (fun _ h => absurd h (by decide))⟩

/-! ## C7: validation -/

/-- C7: `Validate` returns no error exactly when `CMSWidth > 0`, `CMSDepth > 0`,
`Rate >= 0` and `Burst >= 0`; otherwise it returns the error of the first
violated check in the order width, depth, rate, burst; and
`HeavyHitterThreshold`, `TokenBucketRate` and `TokenBucketBurst` never
influence the result. -/
theorem C7_validate_checks (c : Config) :
    (Validate c = none ↔ 0 < c.CMSWidth ∧ 0 < c.CMSDepth ∧ 0 ≤ c.Rate ∧ 0 ≤ c.Burst) ∧
      (c.CMSWidth ≤ 0 → Validate c = some .cmsWidthMustBePositive) ∧
      (0 < c.CMSWidth → c.CMSDepth ≤ 0 → Validate c = some .cmsDepthMustBePositive) ∧
      (0 < c.CMSWidth → 0 < c.CMSDepth → c.Rate < 0 →
        Validate c = some .rateCannotBeNegative) ∧
      (0 < c.CMSWidth → 0 < c.CMSDepth → 0 ≤ c.Rate → c.Burst < 0 →
        Validate c = some .burstCannotBeNegative) ∧
      (∀ h t b : Int,
        Validate { c with HeavyHitterThreshold := h, TokenBucketRate := t,
                          TokenBucketBurst := b } = Validate c) := by
  refine ⟨?_, ?_, ?_, ?_, ?_, ?_⟩
  · unfold Validate
    constructor
    · intro h
      split_ifs at h
      omega
    · rintro ⟨h1, h2, h3, h4⟩
      have g1 : ¬ c.CMSWidth ≤ 0 := by omega
      have g2 : ¬ c.CMSDepth ≤ 0 := by omega
      have g3 : ¬ c.Rate < 0 := by omega
      have g4 : ¬ c.Burst < 0 := by omega
      simp only [g1, g2, g3, g4, if_false]
  · intro h
    simp only [Validate, h, if_true]
  · intro h1 h2
    have g1 : ¬ c.CMSWidth ≤ 0 := by omega
    simp only [Validate, g1, h2, if_true, if_false]
  · intro h1 h2 h3
    have g1 : ¬ c.CMSWidth ≤ 0 := by omega
    have g2 : ¬ c.CMSDepth ≤ 0 := by omega
    simp only [Validate, g1, g2, h3, if_true, if_false]
  · intro h1 h2 h3 h4
    have g1 : ¬ c.CMSWidth ≤ 0 := by omega
    have g2 : ¬ c.CMSDepth ≤ 0 := by omega
    have g3 : ¬ c.Rate < 0 := by omega
    simp only [Validate, g1, g2, g3, h4, if_true, if_false]
  · intro h t b
    rfl

/-! ## C8: inputs that do not start with a digit -/

/-- C8 at its failing inputs: `"-5"` and `"+5"` start with a rune that is not
a digit, yet `parseBandwidth` reports the unknown-suffix error for them, with
the whole input as the suffix, where `"abc"` and `"M"` get the invalid-number
error. -/
theorem C8_signed_number_unknown_suffix :
    parseBandwidth asciiOnly "-5".toList = .err (.unknownSuffix "-5".toList) ∧
      parseBandwidth asciiOnly "+5".toList = .err (.unknownSuffix "+5".toList) ∧
      parseBandwidth asciiOnly "abc".toList = .err (.invalidNumber "abc".toList) ∧
      parseBandwidth asciiOnly "M".toList = .err (.invalidNumber "M".toList) := by
  decide

/-! ## C9: unknown suffixes -/

/-- C9, as stated, fails: `"10 "` is the digits `10` followed by the suffix `" "`,
which is non-empty, starts with a rune that is not a digit and is not in the
table, and `parseBandwidth` accepts it with value 10 because the input is
trimmed first; likewise `"10M "` with the suffix `"M "`. -/
theorem C9_trailing_space_counterexample :
    suffixMultiplier (ToUpper asciiOnly " ".toList) = none ∧
      parseBandwidth asciiOnly ("10".toList ++ " ".toList) = .ok 10 ∧
      suffixMultiplier (ToUpper asciiOnly "M ".toList) = none ∧
      parseBandwidth asciiOnly ("10".toList ++ "M ".toList) = .ok 10000000 ∧
      ParseBandwidthAnnotation sampleUnmarshal asciiOnly ("10".toList ++ "M ".toList)
        = .ok config10M := by
  decide

/-- C9, amended: for every input whose trimmed form is a non-empty run of
decimal digits denoting a value at most `2^63 - 1`, followed by a non-empty
suffix that starts with a rune that is not a digit and whose upper-cased form
is not in the table, `parseBandwidth` fails with the unknown-suffix error, and
`ParseBandwidthAnnotation` returns an error and no Config. -/
theorem C9_unknown_suffix (unmarshal : List Char → Option Raw) (up : Char → Char)
    (s D sfx : List Char) (x : Char) (ht : TrimSpace s = D ++ x :: sfx) (hne : D ≠ [])
    (hD : AllDigits D) (hv : (decimalValue D : Int) ≤ maxInt64) (hx : notDigit x = true)
    (hsfx : suffixMultiplier (ToUpper up (x :: sfx)) = none) :
    parseBandwidth up s = .err (.unknownSuffix (ToUpper up (x :: sfx))) ∧
      ParseBandwidthAnnotation unmarshal up s
        = .err (.invalidBandwidthFormat (.unknownSuffix (ToUpper up (x :: sfx)))) := by
  have hlt : decimalValue D < 2 ^ 63 := by
    have e : maxInt64 = 9223372036854775807 := by norm_num [maxInt64]
    rw [e] at hv
    norm_num
    omega
  have hp : parseBandwidth up s = .err (.unknownSuffix (ToUpper up (x :: sfx))) := by
    rw [parseBandwidth_digits up s D (x :: sfx) ht hne hD (by simpa using hx), if_pos hlt]
    exact suffixSwitch_unknown _ _ hsfx
  refine ⟨hp, ?_⟩
  have hs : s ≠ [] := by
    rintro rfl
    simp [TrimSpace] at ht
  have hj : (TrimSpace s).head? ≠ some '{' := by
    rw [ht]
    cases D with
    | nil => exact absurd rfl hne
    | cons d ds =>
      simp only [List.cons_append, List.head?_cons, ne_eq, Option.some.injEq]
      rintro rfl
      exact absurd (allDigits_cons.1 hD).1 (by decide)
  simp only [ ParseBandwidthAnnotation, hs, hj, hp, if_false]

/-- C9, amended, at `"10X"` and at `"10 M"`. -/
theorem C9_unknown_suffix_witness :
    (parseBandwidth asciiOnly "10X".toList = .err (.unknownSuffix "X".toList) ∧
        ParseBandwidthAnnotation sampleUnmarshal asciiOnly "10X".toList
          = .err (.invalidBandwidthFormat (.unknownSuffix "X".toList))) ∧
      (parseBandwidth asciiOnly "10 M".toList = .err (.unknownSuffix " M".toList) ∧
        ParseBandwidthAnnotation sampleUnmarshal asciiOnly "10 M".toList
          = .err (.invalidBandwidthFormat (.unknownSuffix " M".toList))) :=
  ⟨C9_unknown_suffix sampleUnmarshal asciiOnly "10X".toList "10".toList [] 'X' (by decide)
      (by decide) (by unfold AllDigits; decide) (by decide) (by decide) (by decide),
    C9_unknown_suffix sampleUnmarshal asciiOnly "10 M".toList "10".toList "M".toList ' '
      (by decide) (by decide) (by unfold AllDigits; decide) (by decide) (by decide)
      (by decide)⟩

/-! ## C10: the empty annotation -/

/-- C10: on the empty string `ParseBandwidthAnnotation` returns no error and
`DefaultConfig`, a pass-through configuration with `Rate = 0`, `Burst = 0`,
`CMSWidth = 1024`, `CMSDepth = 4` and `HeavyHitterThreshold = 1000`, which
`Validate` accepts. -/
theorem C10_empty_annotation (unmarshal : List Char → Option Raw) (up : Char → Char) :
    ParseBandwidthAnnotation unmarshal up [] = .ok DefaultConfig ∧
      DefaultConfig.Rate = 0 ∧ DefaultConfig.Burst = 0 ∧ DefaultConfig.CMSWidth = 1024 ∧
      DefaultConfig.CMSDepth = 4 ∧ DefaultConfig.HeavyHitterThreshold = 1000 ∧
      Validate DefaultConfig = none := by
  refine ⟨rfl, rfl, rfl, rfl, rfl, rfl, rfl⟩

/-! ## C11: structured documents -/

theorem parseBandwidth_nil (up : Char → Char) : parseBandwidth up [] = .ok 0 := rfl

/-- The rate and burst steps on a document whose rate string parses to a
positive value. -/
theorem parseRateBurst_positive (up : Char → Char) (raw : Raw) (r : Int)
    (hr : parseBandwidth up raw.Rate = .ok r) (hpos : 0 < r) :
    (raw.Burst = [] →
        parseRateBurst up raw DefaultConfig
          = .ok { DefaultConfig with
                  Rate := r, Burst := mul64 r 2, TokenBucketRate := r,
                  TokenBucketBurst := mul64 r 2 }) ∧
      (∀ b, raw.Burst ≠ [] → parseBandwidth up raw.Burst = .ok b →
        parseRateBurst up raw DefaultConfig
          = .ok { DefaultConfig with
                  Rate := r, Burst := b, TokenBucketRate := r, TokenBucketBurst := b }) := by
  have hne : raw.Rate ≠ [] := by
    intro h
    rw [h, parseBandwidth_nil] at hr
    simp only [Result.ok.injEq] at hr
    omega
  constructor
  · intro hb
    simp [parseRateBurst, hne, hr, hb, hpos]
  · intro b hb hpb
    simp [parseRateBurst, hne, hr, hb, hpb]

/-- C11: for a structured document whose rate string parses to `r > 0` and
which has no `tokenBucket` fields, `ParseBandwidthAnnotation` succeeds with
`Rate = TokenBucketRate = r`; without a burst string
`Burst = TokenBucketBurst = 2*r` (the `int64` product, which is `2*r` when that
fits), and with a burst string parsing to `b` they are `b`; positive
`cms.width`, `cms.depth` and `cms.heavyHitterThreshold` replace the defaults
1024, 4 and 1000, which stay when the document has no `cms` fields. -/
theorem C11_structured_document (unmarshal : List Char → Option Raw) (up : Char → Char)
    (data : List Char) (raw : Raw) (r : Int)
    (hj : (TrimSpace data).head? = some '{') (hraw : unmarshal data = some raw)
    (htb : raw.TokenBucket = ⟨0, 0⟩)
    (hr : parseBandwidth up raw.Rate = .ok r) (hpos : 0 < r) :
    (raw.Burst = [] → raw.CMS = ⟨0, 0, 0⟩ →
        ParseBandwidthAnnotation unmarshal up data =
          .ok { Rate := r
                Burst := mul64 r 2
                CMSWidth := 1024
                CMSDepth := 4
                HeavyHitterThreshold := 1000
                TokenBucketRate := r
                TokenBucketBurst := mul64 r 2 }) ∧
      (raw.Burst = [] →
        ParseBandwidthAnnotation unmarshal up data =
          .ok { Rate := r
                Burst := mul64 r 2
                CMSWidth := if 0 < raw.CMS.Width then raw.CMS.Width else 1024
                CMSDepth := if 0 < raw.CMS.Depth then raw.CMS.Depth else 4
                HeavyHitterThreshold :=
                  if 0 < raw.CMS.HeavyHitterThreshold then raw.CMS.HeavyHitterThreshold
                  else 1000
                TokenBucketRate := r
                TokenBucketBurst := mul64 r 2 }) ∧
      (∀ b, raw.Burst ≠ [] → parseBandwidth up raw.Burst = .ok b →
        ParseBandwidthAnnotation unmarshal up data =
          .ok { Rate := r
                Burst := b
                CMSWidth := if 0 < raw.CMS.Width then raw.CMS.Width else 1024
                CMSDepth := if 0 < raw.CMS.Depth then raw.CMS.Depth else 4
                HeavyHitterThreshold :=
                  if 0 < raw.CMS.HeavyHitterThreshold then raw.CMS.HeavyHitterThreshold
                  else 1000
                TokenBucketRate := r
                TokenBucketBurst := b }) ∧
      (2 * r ≤ maxInt64 → mul64 r 2 = 2 * r) := by
  obtain ⟨h1, h2⟩ := parseRateBurst_positive up raw r hr hpos
  have hcms : ∀ c : Config,
      applyTokenBucket raw.TokenBucket (applyCMS raw.CMS c) =
        { c with
          CMSWidth := if 0 < raw.CMS.Width then raw.CMS.Width else c.CMSWidth
          CMSDepth := if 0 < raw.CMS.Depth then raw.CMS.Depth else c.CMSDepth
          HeavyHitterThreshold :=
            if 0 < raw.CMS.HeavyHitterThreshold then raw.CMS.HeavyHitterThreshold
            else c.HeavyHitterThreshold } := by
    intro c
    rw [htb]
    unfold applyTokenBucket applyCMS
    by_cases w : 0 < raw.CMS.Width <;> by_cases d : 0 < raw.CMS.Depth <;>
      by_cases t : 0 < raw.CMS.HeavyHitterThreshold <;> simp [w, d, t]
  rw [ParseBandwidthAnnotation_structured _ _ _ hj]
  unfold parseJSONConfig
  simp only [hraw]
  refine ⟨?_, ?_, ?_, ?_⟩
  · intro hb hc
    rw [h1 hb]
    simp only [hcms, DefaultConfig]
    simp [hc]
  · intro hb
    rw [h1 hb]
    simp only [hcms, DefaultConfig]
  · intro b hb hpb
    rw [h2 b hb hpb]
    simp only [hcms, DefaultConfig]
  · intro hfit
    have e : maxInt64 = 9223372036854775807 := by norm_num [maxInt64]
    rw [mul64_small r 2 (by omega) (by rw [e] at hfit ⊢; omega)]
    ring

/-- C11 on the sample documents: `"rate":"10M"` alone, and with the burst
`"5M"` and the sketch parameters 2048, 8 and 500. -/
theorem C11_structured_document_witness :
    ParseBandwidthAnnotation sampleUnmarshal asciiOnly docRate = .ok config10M ∧
      ParseBandwidthAnnotation sampleUnmarshal asciiOnly docRateBurstCMS =
        .ok { Rate := 10000000
              Burst := 5000000
              CMSWidth := 2048
              CMSDepth := 8
              HeavyHitterThreshold := 500
              TokenBucketRate := 10000000
              TokenBucketBurst := 5000000 } :=
  ⟨(C11_structured_document sampleUnmarshal asciiOnly docRate
      { emptyRaw with Rate := "10M".toList } 10000000 (by decide) (by decide) (by decide)
      (by decide) (by decide)).1 (by decide) (by decide),
    (C11_structured_document sampleUnmarshal asciiOnly docRateBurstCMS
      { Rate := "10M".toList, Burst := "5M".toList, CMS := ⟨2048, 8, 500⟩,
        TokenBucket := ⟨0, 0⟩ } 10000000 (by decide) (by decide) (by decide)
      (by decide) (by decide)).2.2.1 5000000 (by decide) (by decide)⟩

/-! ## C15: validation of a parsed policy -/

/-- C15: for every annotation that `ParseBandwidthAnnotation` accepts in which
every bandwidth number `n` with suffix multiplier `m` (the simple value, or
the structured rate and burst strings) satisfies `2*n*m <= 2^63 - 1`,
`Validate` returns no error on the returned Config. -/
theorem C15_validate_without_overflow (unmarshal : List Char → Option Raw) (up : Char → Char)
    (a : List Char) (cfg : Config)
    (hacc : ParseBandwidthAnnotation unmarshal up a = .ok cfg)
    (hsimple : (TrimSpace a).head? ≠ some '{' → fitsInt64 up a = true)
    (hjson : ∀ raw, (TrimSpace a).head? = some '{' → unmarshal a = some raw →
      fitsInt64 up raw.Rate = true ∧ fitsInt64 up raw.Burst = true) :
    Validate cfg = none := by
  obtain ⟨h1, h2, -, -, -, h6, h7⟩ := invariant_of_fits unmarshal up a cfg hacc hsimple hjson
  have g1 : ¬ cfg.CMSWidth ≤ 0 := by omega
  have g2 : ¬ cfg.CMSDepth ≤ 0 := by omega
  have g3 : ¬ cfg.Rate < 0 := by omega
  have g4 : ¬ cfg.Burst < 0 := by omega
  simp only [Validate, g1, g2, g3, g4, if_false]

/-- C15 on the sample document with the burst `"5M"` and the sketch parameters
2048, 8 and 500. -/
theorem C15_validate_without_overflow_witness :
    Validate
      { Rate := 10000000
        Burst := 5000000
        CMSWidth := 2048
        CMSDepth := 8
        HeavyHitterThreshold := 500
        TokenBucketRate := 10000000
        TokenBucketBurst := 5000000 } = none :=
  C15_validate_without_overflow sampleUnmarshal asciiOnly docRateBurstCMS _ (by decide)
    (fun h => absurd (by decide) h)
    (fun raw _ hraw => by
      have e : sampleUnmarshal docRateBurstCMS
          = some ⟨"10M".toList, "5M".toList, ⟨2048, 8, 500⟩, ⟨0, 0⟩⟩ := by decide
      rw [e] at hraw
      cases hraw
      decide)

/-! ## C17: sketch parameters that are not positive -/

/-- The sketch parameters of every accepted annotation are positive. -/
theorem sketch_parameters_positive (unmarshal : List Char → Option Raw) (up : Char → Char)
    (a : List Char) (cfg : Config)
    (hacc : ParseBandwidthAnnotation unmarshal up a = .ok cfg) :
    0 < cfg.CMSWidth ∧ 0 < cfg.CMSDepth ∧ 0 < cfg.HeavyHitterThreshold := by
  by_cases hempty : a = []
  · subst hempty
    simp only [ ParseBandwidthAnnotation, if_true, Result.ok.injEq] at hacc
    subst hacc
    simp [DefaultConfig]
  by_cases hj : (TrimSpace a).head? = some '{'
  · rw [ParseBandwidthAnnotation_structured _ _ _ hj] at hacc
    cases hraw : unmarshal a with
    | none => simp [parseJSONConfig, hraw] at hacc
    | some raw =>
      obtain ⟨c, hc, rfl⟩ := parseJSONConfig_ok unmarshal up a raw cfg hraw hacc
      obtain ⟨w1, w2, w3, -⟩ := parseRateBurst_ok up raw c hc
      obtain ⟨-, -, t3, t4, t5, -, -⟩ :=
        applyTokenBucket_fields raw.TokenBucket (applyCMS raw.CMS c)
      obtain ⟨-, -, -, -, a5, a6, a7⟩ := applyCMS_fields raw.CMS c
      rw [t3, t4, t5, a5, a6, a7, w1, w2, w3]
      refine ⟨?_, ?_, ?_⟩ <;> split <;> omega
  · simp only [ ParseBandwidthAnnotation, hempty, hj, if_false] at hacc
    cases hp : parseBandwidth up a with
    | err e => simp [hp] at hacc
    | ok r =>
      simp only [hp, Result.ok.injEq] at hacc
      subst hacc
      simp [DefaultConfig]

/-- C17: a `cms.width`, `cms.depth` or `cms.heavyHitterThreshold` that is zero or
negative is treated as absent: an accepted structured document stays accepted
when these values are set to anything not positive, and the Config then has
the defaults 1024, 4 and 1000.  Every Config that `ParseBandwidthAnnotation`
returns has `CMSWidth > 0`, `CMSDepth > 0` and `HeavyHitterThreshold > 0`, and
`Validate` reports neither non-positive-dimension error on it. -/
theorem C17_sketch_parameters (unmarshal : List Char → Option Raw) (up : Char → Char)
    (a : List Char) (cfg : Config)
    (hacc : ParseBandwidthAnnotation unmarshal up a = .ok cfg) :
    (0 < cfg.CMSWidth ∧ 0 < cfg.CMSDepth ∧ 0 < cfg.HeavyHitterThreshold) ∧
      Validate cfg ≠ some .cmsWidthMustBePositive ∧
      Validate cfg ≠ some .cmsDepthMustBePositive ∧
      (∀ (raw : Raw) (b : List Char) (cms : RawCMS),
        (TrimSpace a).head? = some '{' → (TrimSpace b).head? = some '{' →
        unmarshal a = some raw → unmarshal b = some { raw with CMS := cms } →
        cms.Width ≤ 0 → cms.Depth ≤ 0 → cms.HeavyHitterThreshold ≤ 0 →
        ParseBandwidthAnnotation unmarshal up b =
          .ok { cfg with CMSWidth := 1024, CMSDepth := 4, HeavyHitterThreshold := 1000 }) := by
  obtain ⟨p1, p2, p3⟩ := sketch_parameters_positive unmarshal up a cfg hacc
  have g1 : ¬ cfg.CMSWidth ≤ 0 := by omega
  have g2 : ¬ cfg.CMSDepth ≤ 0 := by omega
  refine ⟨⟨p1, p2, p3⟩, ?_, ?_, ?_⟩
  · simp only [Validate, g1, g2, if_false]
    split_ifs <;> simp
  · simp only [Validate, g1, g2, if_false]
    split_ifs <;> simp
  · intro raw b cms hja hjb hra hrb hw hd ht
    rw [ParseBandwidthAnnotation_structured _ _ _ hja] at hacc
    rw [ParseBandwidthAnnotation_structured _ _ _ hjb]
    obtain ⟨c, hc, rfl⟩ := parseJSONConfig_ok unmarshal up a raw cfg hra hacc
    obtain ⟨w1, w2, w3, -⟩ := parseRateBurst_ok up raw c hc
    have hsame : parseRateBurst up { raw with CMS := cms } DefaultConfig
        = parseRateBurst up raw DefaultConfig := rfl
    obtain ⟨cr, cb, cw, cd, ch, ctr, ctb⟩ := c
    simp only at w1 w2 w3
    subst w1 w2 w3
    have n1 : ¬ cms.Width > 0 := by omega
    have n2 : ¬ cms.Depth > 0 := by omega
    have n3 : ¬ cms.HeavyHitterThreshold > 0 := by omega
    unfold parseJSONConfig
    simp only [hrb, hsame, hc, Result.ok.injEq]
    unfold applyTokenBucket applyCMS
    by_cases x1 : raw.CMS.Width > 0 <;> by_cases x2 : raw.CMS.Depth > 0 <;>
      by_cases x3 : raw.CMS.HeavyHitterThreshold > 0 <;>
      by_cases y1 : raw.TokenBucket.Rate > 0 <;> by_cases y2 : raw.TokenBucket.Burst > 0 <;>
      simp [n1, n2, n3, x1, x2, x3, y1, y2]

/-- C17 on the sample documents: `"rate":"10M"` alone is accepted, and with the
sketch parameters 0, -3 and 0 it yields the same Config with 1024, 4 and 1000. -/
theorem C17_sketch_parameters_witness :
    ParseBandwidthAnnotation sampleUnmarshal asciiOnly docCMSNonPositive = .ok config10M :=
  (C17_sketch_parameters sampleUnmarshal asciiOnly docRate config10M (by decide)).2.2.2
    { emptyRaw with Rate := "10M".toList } docCMSNonPositive ⟨0, -3, 0⟩ (by decide) (by decide)
    (by decide) (by decide) (by decide) (by decide) (by decide)

/-! ## C14: the inputs `parseBandwidth` accepts -/

/-- The switch accepts every suffix of the table, whatever the number. -/
theorem suffixSwitch_accepts (num : Int) (w : List Char) (m : Nat)
    (hw : (w, m) ∈ suffixTable) : ∃ r, suffixSwitch num w = .ok r := by
  simp only [suffixTable, List.mem_cons, Prod.mk.injEq, List.mem_singleton, List.not_mem_nil,
    or_false] at hw
  rcases hw with ⟨rfl, rfl⟩ | ⟨rfl, rfl⟩ | ⟨rfl, rfl⟩ | ⟨rfl, rfl⟩ | ⟨rfl, rfl⟩ | ⟨rfl, rfl⟩ |
    ⟨rfl, rfl⟩ | ⟨rfl, rfl⟩ | ⟨rfl, rfl⟩ | ⟨rfl, rfl⟩ | ⟨rfl, rfl⟩ | ⟨rfl, rfl⟩ | ⟨rfl, rfl⟩ |
    ⟨rfl, rfl⟩ <;>
  exact ⟨_, rfl⟩

/-- A suffix whose upper-cased form is in the table does not start with a digit. -/
theorem table_suffix_head (up : Char → Char) (sfx : List Char) (m : Nat)
    (h : suffixMultiplier (ToUpper up sfx) = some m) :
    ∀ c, sfx.head? = some c → notDigit c = true := by
  intro c hc
  cases sfx with
  | nil => cases hc
  | cons x t =>
    simp only [List.head?_cons, Option.some.injEq] at hc
    subst hc
    have hw := (suffixMultiplier_iff _ m).1 h
    have hu := (table_words _ m hw).1 (toUpperRune up x) (by simp [ToUpper])
    by_contra hx
    have hx' : notDigit x = false := by simpa using hx
    simp only [notDigit, Bool.or_eq_false_iff, decide_eq_false_iff_not, not_lt] at hx'
    have h1 : x.toNat < 128 := by omega
    have h2 : ¬ (97 ≤ x.toNat ∧ x.toNat ≤ 122) := by omega
    have h3 : toUpperRune up x = x := by
      simp only [toUpperRune, h1, h2, if_true, if_false]
    rw [h3] at hu
    obtain ⟨u1, u2⟩ := hu
    omega

/-- A suffix whose upper-cased form starts with anything but an upper-case
letter is not in the table. -/
theorem suffixMultiplier_head (u : Char) (w : List Char) (hu : ¬ UpperLetter u) :
    suffixMultiplier (u :: w) = none := by
  cases h : suffixMultiplier (u :: w) with
  | none => rfl
  | some m =>
    exact absurd ((table_words _ m ((suffixMultiplier_iff _ m).1 h)).1 u
      (List.mem_cons_self _ _)) hu

/-- On ASCII text the upper-cased form does not depend on the case table. -/
theorem ToUpper_ascii (up : Char → Char) (t : List Char) (h : ∀ c ∈ t, c.toNat < 128) :
    ToUpper up t = ToUpper asciiOnly t := by
  unfold ToUpper
  apply List.map_congr_left
  intro c hc
  simp only [toUpperRune, h c hc, if_true]

/-- C14: `parseBandwidth` succeeds exactly when the trimmed input is empty
(the result is then 0) or is a non-empty run of decimal digits denoting a
value at most `2^63 - 1`, immediately followed by a suffix whose upper-cased
form is in the table (the empty suffix included); on ASCII text the
upper-cased form is the same for every case table.  In particular an input
that does not start with a digit, such as a signed number, is rejected, and
so is one where a point or a space follows the digits. -/
theorem C14_parseBandwidth_accepts_iff (up : Char → Char) (s : List Char) :
    ((∃ r, parseBandwidth up s = .ok r) ↔
        TrimSpace s = [] ∨
          ∃ D sfx m, TrimSpace s = D ++ sfx ∧ D ≠ [] ∧ AllDigits D ∧
            (decimalValue D : Int) ≤ maxInt64 ∧
            suffixMultiplier (ToUpper up sfx) = some m) ∧
      (TrimSpace s = [] → parseBandwidth up s = .ok 0) ∧
      (∀ t : List Char, (∀ c ∈ t, c.toNat < 128) → ToUpper up t = ToUpper asciiOnly t) ∧
      (∀ x rest, TrimSpace s = x :: rest → notDigit x = true →
        ∃ e, parseBandwidth up s = .err e) ∧
      (∀ D x rest, TrimSpace s = D ++ x :: rest → AllDigits D → (x = '.' ∨ x = ' ') →
        ∃ e, parseBandwidth up s = .err e) ∧
      parseBandwidth up "-5".toList = .err (.unknownSuffix "-5".toList) ∧
      parseBandwidth up "1.5M".toList = .err (.unknownSuffix ".5M".toList) ∧
      parseBandwidth up "10 M".toList = .err (.unknownSuffix " M".toList) := by
  have e : maxInt64 = 9223372036854775807 := by norm_num [maxInt64]
  refine ⟨⟨?_, ?_⟩, ?_, ToUpper_ascii up, ?_, ?_, rfl, rfl, rfl⟩
  · rintro ⟨r, hr⟩
    rcases parseBandwidth_ok_inv up s r hr with ⟨h, -⟩ | ⟨D, sfx, hs, hne, hD, -, hlt, hsw⟩
    · exact Or.inl h
    · obtain ⟨m, hm⟩ := suffixSwitch_ok_inv _ _ _ hsw
      refine Or.inr ⟨D, sfx, m, hs, hne, hD, ?_, (suffixMultiplier_iff _ m).2 hm⟩
      rw [e]
      norm_num at hlt
      omega
  · rintro (h | ⟨D, sfx, m, hs, hne, hD, hv, hm⟩)
    · exact ⟨0, by simp only [parseBandwidth, h, if_true]⟩
    · have hlt : decimalValue D < 2 ^ 63 := by
        rw [e] at hv
        norm_num
        omega
      rw [parseBandwidth_digits up s D sfx hs hne hD (table_suffix_head up sfx m hm),
        if_pos hlt]
      exact suffixSwitch_accepts _ _ m ((suffixMultiplier_iff _ m).1 hm)
  · intro h
    simp only [parseBandwidth, h, if_true]
  · intro x rest hs hx
    exact parseBandwidth_nondigit up s rest x hs hx
  · intro D x rest hs hD hx
    have hnd : notDigit x = true := by
      rcases hx with rfl | rfl <;> rfl
    cases D with
    | nil => exact parseBandwidth_nondigit up s rest x hs hnd
    | cons d ds =>
      rw [parseBandwidth_digits up s (d :: ds) (x :: rest) hs (by simp) hD
        (by simpa using hnd)]
      split
      · refine ⟨_, suffixSwitch_unknown _ _ ?_⟩
        have hup : ToUpper up (x :: rest) = x :: ToUpper up rest := by
          rcases hx with rfl | rfl <;> rfl
        rw [hup]
        apply suffixMultiplier_head
        rcases hx with rfl | rfl <;> exact fun h => absurd h.1 (by decide)
      · exact ⟨_, rfl⟩

/-! ## C16: the simple format and the document carrying only a rate -/

theorem dropWhile_append_singleton (p : Char → Bool) (l : List Char) (x : Char)
    (hx : p x = false) : (l ++ [x]).dropWhile p = l.dropWhile p ++ [x] := by
  induction l with
  | nil => simp [List.dropWhile, hx]
  | cons y t ih =>
    by_cases hy : p y = true
    · simp [List.dropWhile, hy, ih]
    · simp [List.dropWhile, hy]

/-- Trimming keeps a first rune that is not white space. -/
theorem TrimSpace_head (x : Char) (t : List Char) (hx : isSpace x = false) :
    (TrimSpace (x :: t)).head? = some x := by
  unfold TrimSpace
  simp only [List.dropWhile, hx, List.reverse_cons]
  rw [dropWhile_append_singleton isSpace _ x hx]
  simp

/-- C16, as stated, fails at `X = "0"`: the simple format yields
`TokenBucketBurst = 0`, the structured document carrying only the rate `"0"`
yields `TokenBucketBurst = 200`. -/
theorem C16_zero_rate_counterexample :
    ParseBandwidthAnnotation sampleUnmarshal asciiOnly "0".toList =
        .ok { Rate := 0
              Burst := 0
              CMSWidth := 1024
              CMSDepth := 4
              HeavyHitterThreshold := 1000
              TokenBucketRate := 0
              TokenBucketBurst := 0 } ∧
      sampleUnmarshal (rateDocument "0".toList) = some { emptyRaw with Rate := "0".toList } ∧
      ParseBandwidthAnnotation sampleUnmarshal asciiOnly (rateDocument "0".toList) =
        .ok { Rate := 0
              Burst := 0
              CMSWidth := 1024
              CMSDepth := 4
              HeavyHitterThreshold := 1000
              TokenBucketRate := 0
              TokenBucketBurst := 200 } := by
  decide

/-- C16, amended: for every simple-format string `X` that
`ParseBandwidthAnnotation` accepts with a positive rate, the structured
document carrying only the rate `X` is accepted and yields the same Config.
When the rate is not positive, as for `X = "0"`, the document is accepted too
but leaves `Burst` and `TokenBucketBurst` at the values 0 and 200 of
`DefaultConfig`, where the simple format has twice the rate in both. -/
theorem C16_simple_and_rate_document (unmarshal : List Char → Option Raw) (up : Char → Char)
    (X : List Char) (cfg : Config) (hne : X ≠ []) (hj : (TrimSpace X).head? ≠ some '{')
    (hacc : ParseBandwidthAnnotation unmarshal up X = .ok cfg)
    (hdoc : unmarshal (rateDocument X) = some { emptyRaw with Rate := X }) :
    (0 < cfg.Rate → ParseBandwidthAnnotation unmarshal up (rateDocument X) = .ok cfg) ∧
      (cfg.Rate ≤ 0 →
        ParseBandwidthAnnotation unmarshal up (rateDocument X)
          = .ok { cfg with Burst := 0, TokenBucketBurst := 200 }) := by
  have hhead : (TrimSpace (rateDocument X)).head? = some '{' :=
    TrimSpace_head '{' _ (by decide)
  rw [ParseBandwidthAnnotation_structured _ _ _ hhead]
  simp only [ ParseBandwidthAnnotation, hne, hj, if_false] at hacc
  cases hp : parseBandwidth up X with
  | err e => simp [hp] at hacc
  | ok r =>
    simp only [hp, Result.ok.injEq] at hacc
    subst hacc
    unfold parseJSONConfig
    simp only [hdoc]
    constructor
    · intro hpos
      have hpos' : r > 0 := hpos
      simp [parseRateBurst, applyCMS, applyTokenBucket, emptyRaw, hne, hp, hpos',
        DefaultConfig]
    · intro hle
      have hpos' : ¬ r > 0 := by
        have : r ≤ 0 := hle
        omega
      simp [parseRateBurst, applyCMS, applyTokenBucket, emptyRaw, hne, hp, hpos',
        DefaultConfig]

/-- C16, amended, at `X = "10M"`. -/
theorem C16_simple_and_rate_document_witness :
    ParseBandwidthAnnotation sampleUnmarshal asciiOnly (rateDocument "10M".toList)
      = .ok config10M :=
  (C16_simple_and_rate_document sampleUnmarshal asciiOnly "10M".toList config10M (by decide)
    (by decide) (by decide) (by decide)).1 (by decide)

/-! ## C12: the bucket invariant -/

theorem nonDecreasingFrom_weaken (t u : Int) (calls : List (Nat × Int)) (h : u ≤ t)
    (hc : NonDecreasingFrom t calls) : NonDecreasingFrom u calls := by
  cases calls with
  | nil => trivial
  | cons call rest =>
    obtain ⟨h1, h2⟩ := hc
    exact ⟨le_trans h h1, h2⟩

/-- One call keeps the invariant, the rate and the capacity, and leaves the
last-refill time no later than the call. -/
theorem tryConsume_preserves (b : Bucket) (n : Nat) (now : Int) (hinv : BucketInvariant b)
    (hrate : 0 ≤ b.rate) (htime : b.lastRefill ≤ now) :
    BucketInvariant (tryConsume b n now).1 ∧ 0 ≤ (tryConsume b n now).1.rate ∧
      (tryConsume b n now).1.lastRefill ≤ now := by
  obtain ⟨h0, h1⟩ := hinv
  have hprod : 0 ≤ b.rate * (now - b.lastRefill) := Int.mul_nonneg hrate (by omega)
  unfold tryConsume
  by_cases hr : b.rate = 0
  · simp only [hr, if_true]
    exact ⟨⟨h0, h1⟩, by omega, htime⟩
  · simp only [hr, if_false]
    by_cases hn : (refill b now).tokens ≥ n
    · simp only [hn, if_true]
      simp only [refill, BucketInvariant, ge_iff_le] at hn ⊢
      refine ⟨⟨by omega, by omega⟩, hrate, le_refl _⟩
    · simp only [hn, if_false]
      simp only [refill, BucketInvariant]
      refine ⟨⟨by omega, by omega⟩, hrate, le_refl _⟩

/-- C12: for every bucket that satisfies `0 <= tokens <= capacity` with a rate
that is not negative, and every sequence of `tryConsume` calls whose
timestamps never decrease, starting no earlier than the last refill of the
bucket, `0 <= tokens <= capacity` holds after every call, that is after every
initial part of the sequence. -/
theorem C12_bucket_invariant (calls : List (Nat × Int)) (b : Bucket)
    (hinv : BucketInvariant b) (hrate : 0 ≤ b.rate)
    (hmono : NonDecreasingFrom b.lastRefill calls) (k : Nat) :
    BucketInvariant (consumeAll b (calls.take k)) := by
  induction calls generalizing b k with
  | nil => simpa [consumeAll] using hinv
  | cons call rest ih =>
    cases k with
    | zero => simpa [consumeAll] using hinv
    | succ k =>
      obtain ⟨h1, h2⟩ := hmono
      obtain ⟨p1, p2, p3⟩ := tryConsume_preserves b call.1 call.2 hinv hrate h1
      simp only [List.take_succ_cons, consumeAll]
      exact ih _ p1 p2 (nonDecreasingFrom_weaken _ _ rest p3 h2) k

/-- C12 on a bucket of capacity 10 holding 5 tokens, rate 1, through an
admitted call, a rejected call and another admitted call. -/
theorem C12_bucket_invariant_witness :
    consumeAll ⟨5, 10, 1, 0⟩ [(3, 2), (20, 2), (4, 5)] = ⟨3, 10, 1, 5⟩ ∧
      BucketInvariant (consumeAll ⟨5, 10, 1, 0⟩ ([(3, 2), (20, 2), (4, 5)].take 3)) :=
  ⟨by decide,
    C12_bucket_invariant [(3, 2), (20, 2), (4, 5)] ⟨5, 10, 1, 0⟩ ⟨by decide, by decide⟩
      (by decide) ⟨by decide, by decide, by decide, trivial⟩ 3⟩

/-! ## C13: the sketch never underestimates -/

theorem foldl_min_ge (k : Nat) (xs : List Nat) (x : Nat) (hx : k ≤ x)
    (hxs : ∀ y ∈ xs, k ≤ y) : k ≤ xs.foldl min x := by
  induction xs generalizing x with
  | nil => simpa using hx
  | cons y ys ih =>
    simp only [List.foldl_cons]
    exact ih (min x y) (le_min hx (hxs y (List.mem_cons_self _ _)))
      (fun z hz => hxs z (List.mem_cons_of_mem _ hz))

/-- The estimate is at least any bound that holds in every row. -/
theorem estimate_ge {Flow : Type} (s : Sketch Flow) (flow : Flow) (k : Nat)
    (hd : 0 < s.depth) (h : ∀ row, row < s.depth → k ≤ s.cells row (s.column row flow)) :
    k ≤ s.estimate flow := by
  unfold Sketch.estimate
  have hall : ∀ y ∈ (List.range s.depth).map (fun row => s.cells row (s.column row flow)),
      k ≤ y := by
    intro y hy
    obtain ⟨row, hrow, rfl⟩ := List.mem_map.1 hy
    exact h row (List.mem_range.1 hrow)
  cases hl : (List.range s.depth).map (fun row => s.cells row (s.column row flow)) with
  | nil =>
    have hlen := congrArg List.length hl
    simp at hlen
    omega
  | cons x xs =>
    rw [hl] at hall
    exact foldl_min_ge k xs x (hall x (List.mem_cons_self _ _))
      (fun y hy => hall y (List.mem_cons_of_mem _ hy))

/-- One update adds the bytes of the flow to each of its counters, at least. -/
theorem update_cell_ge {Flow : Type} [DecidableEq Flow] (s : Sketch Flow) (g flow : Flow)
    (bytes row : Nat) (hrow : row < s.depth) :
    s.cells row (s.column row flow) + (if g = flow then bytes else 0)
      ≤ (s.update g bytes).cells row ((s.update g bytes).column row flow) := by
  have hcol : (s.update g bytes).column row flow = s.column row flow := rfl
  rw [hcol]
  simp only [Sketch.update]
  by_cases hc : s.column row flow = s.column row g
  · simp only [hrow, hc, and_self, if_true]
    split <;> omega
  · have hne : g ≠ flow := by
      rintro rfl
      exact hc rfl
    simp only [hc, and_false, if_false, hne]
    omega

/-- Through a sequence of updates every counter of a flow grows by the true
count of the flow, at least. -/
theorem updateAll_cells_ge {Flow : Type} [DecidableEq Flow] (updates : List (Flow × Nat))
    (s : Sketch Flow) (flow : Flow) (k : Nat)
    (h : ∀ row, row < s.depth → k ≤ s.cells row (s.column row flow)) :
    (s.updateAll updates).depth = s.depth ∧
      ∀ row, row < s.depth →
        k + trueCount flow updates
          ≤ (s.updateAll updates).cells row ((s.updateAll updates).column row flow) := by
  induction updates generalizing s k with
  | nil => exact ⟨rfl, fun row hrow => by simpa [trueCount, Sketch.updateAll] using h row hrow⟩
  | cons u rest ih =>
    have hstep : ∀ row, row < (s.update u.1 u.2).depth →
        k + (if u.1 = flow then u.2 else 0)
          ≤ (s.update u.1 u.2).cells row ((s.update u.1 u.2).column row flow) := by
      intro row hrow
      have h1 := update_cell_ge s u.1 flow u.2 row hrow
      have h2 := h row hrow
      omega
    obtain ⟨i1, i2⟩ := ih (s.update u.1 u.2) (k + (if u.1 = flow then u.2 else 0)) hstep
    refine ⟨i1, fun row hrow => ?_⟩
    have h3 := i2 row hrow
    simp only [trueCount, Sketch.updateAll]
    omega

/-- C13: for every sequence of `update(flow, bytes)` calls on a new sketch with
at least one row, with no decay in between, and every flow, `estimate(flow)` is
at least the true total of the bytes added for that flow. -/
theorem C13_sketch_one_sided {Flow : Type} [DecidableEq Flow] (width depth : Nat)
    (hash : Nat → Flow → Nat) (updates : List (Flow × Nat)) (flow : Flow)
    (hd : 0 < depth) :
    trueCount flow updates
      ≤ ((Sketch.new width depth hash).updateAll updates).estimate flow := by
  obtain ⟨h1, h2⟩ := updateAll_cells_ge updates (Sketch.new width depth hash) flow 0
    (fun _ _ => Nat.zero_le _)
  have hdepth : (Sketch.new width depth hash).depth = depth := rfl
  apply estimate_ge
  · rw [h1, hdepth]
    exact hd
  · intro row hrow
    rw [h1] at hrow
    have := h2 row hrow
    omega

/-- C13 on a sketch of 2 rows and 4 columns in which the flows 1 and 5 share
their counters: flow 1 sent 13 bytes and its estimate is 20. -/
theorem C13_sketch_one_sided_witness :
    trueCount 1 [(1, 10), (5, 7), (1, 3)] = 13 ∧
      ((Sketch.new 4 2 (fun row (flow : Nat) => flow + row)).updateAll
        [(1, 10), (5, 7), (1, 3)]).estimate 1 = 20 ∧
      trueCount 1 [(1, 10), (5, 7), (1, 3)]
        ≤ ((Sketch.new 4 2 (fun row (flow : Nat) => flow + row)).updateAll
            [(1, 10), (5, 7), (1, 3)]).estimate 1 :=
  ⟨by decide, by decide,
    C13_sketch_one_sided 4 2 (fun row (flow : Nat) => flow + row) [(1, 10), (5, 7), (1, 3)] 1
      (by decide)⟩

/-! ## C18: `cmdAdd` and the previous result -/

/-- After `parseConfig` the previous result is never set: decoding fills
`RawPrevResult` only. -/
theorem parseConfig_PrevResult (lib : CNILib) (stdin : List Char) (conf : NetConf)
    (hparse : parseConfig lib stdin = some conf) : conf.PrevResult = none := by
  unfold parseConfig at hparse
  cases hd : lib.unmarshalNetConf stdin with
  | none => simp [hd] at hparse
  | some decoded =>
    simp only [hd, Option.some.injEq] at hparse
    subst hparse
    rfl

/-- Once stdin has parsed, `passthrough` prints the empty result of the
configured version, whatever previous result stdin carries. -/
theorem passthrough_of_conf (lib : CNILib) (args : CmdArgs) (conf : NetConf)
    (hparse : parseConfig lib args.StdinData = some conf) :
    passthrough lib args =
      match lib.printResult { CNIVersion := conf.CNIVersion, content := [] }
          conf.CNIVersion with
      | none => { err := some .printResultFailed, stdout := [], stderr := [] }
      | some text => { err := none, stdout := text, stderr := [] } := by
  have hprev := parseConfig_PrevResult lib args.StdinData conf hparse
  simp only [passthrough, hparse, hprev]

/-- The part of the fail-open behaviour that holds: once stdin has parsed,
`cmdAdd` returns the error of `passthrough` and writes to stdout what
`passthrough` writes, whatever the Pod annotations are, and `cmdDel` and
`cmdCheck` return no error. -/
theorem cmdAdd_eq_passthrough (lib : CNILib) (args : CmdArgs) (conf : NetConf)
    (hparse : parseConfig lib args.StdinData = some conf) :
    (cmdAdd lib args).err = (passthrough lib args).err ∧
      (cmdAdd lib args).stdout = (passthrough lib args).stdout ∧
      (∀ input : CmdArgs, cmdDel input = none ∧ cmdCheck input = none) := by
  unfold cmdAdd
  simp only [hparse]
  refine ⟨?_, ?_, fun _ => ⟨rfl, rfl⟩⟩ <;> split <;> rfl

set_option maxRecDepth 20000 in
/-- C18 at its failing inputs.  On a stdin that carries the previous result of
an earlier plugin, `parseConfig` leaves `PrevResult` unset and `cmdAdd`
succeeds with the empty result of version 1.0.0: the previous result is not
returned.  On a stdin that parses but gives no `cniVersion`, the empty result
cannot be printed and `cmdAdd` returns an error instead of an empty success.
With a malformed annotation and a version `cmdAdd` does pass through. -/
theorem C18_previous_result_dropped :
    parseConfig sampleLib chainedStdin
        = some { CNIVersion := "1.0.0".toList
                 RawPrevResult := some prevResultText
                 PrevResult := none
                 PodAnnotations :=
                   some [("kubernetes.io/ingress-bandwidth".toList, "10M".toList)] } ∧
      cmdAdd sampleLib ⟨chainedStdin⟩
        = { err := none
            stdout := "1.0.0".toList
            stderr :=
              "natra: bandwidth annotation found: 10M (eBPF not yet implemented)\n".toList } ∧
      cmdAdd sampleLib ⟨noVersionStdin⟩
        = { err := some .printResultFailed, stdout := [], stderr := [] } ∧
      cmdAdd sampleLib ⟨malformedStdin⟩
        = { err := none
            stdout := "1.0.0".toList
            stderr :=
              "natra: bandwidth annotation found: abc (eBPF not yet implemented)\n".toList } := by
  decide

end Natra
